import Mathlib

/-!
Verification of the Developer-Fixes patch-mining scripts.

Shallow embedding of `Scripts/utils.py`, `Scripts/objects.py`,
`Scripts/contracts.py`, `Scripts/detector_slither.py`,
`Scripts/detector_oyente.py` and the merge logic of `Scripts/patches.py`.

Python JSON-like dynamic values are modelled by the inductive type `Json`;
a Python variable that may hold `None` is modelled by `Option Json`.
Python exceptions are modelled by `Option` (`none` = an exception escaped).
-/

/-- JSON-like dynamic value as produced by `json.loads` / the solidity parser. -/
inductive Json where
  | null : Json
  | bool : Bool → Json
  | num : Int → Json
  | str : String → Json
  | arr : List Json → Json
  | obj : List (String × Json) → Json

mutual
/-- Structural (syntactic) equality test on `Json`. -/
def jbeq : Json → Json → Bool
  | .null, .null => true
  | .bool a, .bool b => a == b
  | .num a, .num b => a == b
  | .str a, .str b => a == b
  | .arr a, .arr b => jbeqList a b
  | .obj a, .obj b => jbeqObj a b
  | _, _ => false

def jbeqList : List Json → List Json → Bool
  | [], [] => true
  | x :: xs, y :: ys => jbeq x y && jbeqList xs ys
  | _, _ => false

def jbeqObj : List (String × Json) → List (String × Json) → Bool
  | [], [] => true
  | (k1, v1) :: xs, (k2, v2) :: ys => k1 == k2 && jbeq v1 v2 && jbeqObj xs ys
  | _, _ => false
end

instance : BEq Json := ⟨jbeq⟩

/-- Python `d[key]` on a dict; `none` models a raised `KeyError`/`TypeError`. -/
def jlookup : Json → String → Option Json
  | .obj l, k => (l.find? (fun kv => kv.1 == k)).map Prod.snd
  | _, _ => none

/-- `utils.get_attr`: `source[key]` with every exception swallowed to `None`. -/
def get_attr (source : Option Json) (key : String) : Option Json :=
  source.bind (fun j => jlookup j key)

mutual
/-- `utils.remove_loc_info`: recursively drop every `'loc'` dict entry. -/
def remove_loc_info : Json → Json
  | .arr l => .arr (removeLocList l)
  | .obj l => .obj (removeLocObj l)
  | j => j

def removeLocList : List Json → List Json
  | [] => []
  | x :: xs => remove_loc_info x :: removeLocList xs

def removeLocObj : List (String × Json) → List (String × Json)
  | [] => []
  | (k, v) :: xs =>
    if k = "loc" then removeLocObj xs else (k, remove_loc_info v) :: removeLocObj xs
end

/-- Key inclusion between two dict entry lists. -/
def pyKeysSub (a b : List (String × Json)) : Bool :=
  a.all (fun kv => b.any (fun kv2 => kv.1 == kv2.1))

mutual
/-- Python `==` between two JSON-like values (`True == 1`, dicts by key). -/
def pyEqJson : Json → Json → Bool
  | .null, .null => true
  | .bool a, .bool b => a == b
  | .num a, .num b => a == b
  | .bool a, .num b => (if a then (1 : Int) else 0) == b
  | .num a, .bool b => a == (if b then (1 : Int) else 0)
  | .str a, .str b => a == b
  | .arr a, .arr b => pyEqList a b
  | .obj a, .obj b => pyKeysSub a b && pyKeysSub b a && pyEqObjFwd a b
  | _, _ => false

def pyEqList : List Json → List Json → Bool
  | [], [] => true
  | x :: xs, y :: ys => pyEqJson x y && pyEqList xs ys
  | _, _ => false

def pyEqObjFwd : List (String × Json) → List (String × Json) → Bool
  | [], _ => true
  | (k, v) :: rest, b =>
    (match (b.find? (fun kv => kv.1 == k)).map Prod.snd with
     | some w => pyEqJson v w
     | none => false) && pyEqObjFwd rest b
end

/-- Python `==` between two values that may be `None`. -/
def pyEqObj : Option Json → Option Json → Bool
  | none, none => true
  | some a, some b => pyEqJson a b
  | _, _ => false

/-- Code-point comparison of strings, as Python compares `str` keys. -/
def charListLe : List Char → List Char → Bool
  | [], _ => true
  | _ :: _, [] => false
  | a :: xs, b :: ys =>
    if a.val < b.val then true
    else if b.val < a.val then false
    else charListLe xs ys

def strLe (s t : String) : Bool := charListLe s.data t.data

/-- Insert a dict entry into a key-sorted entry list. -/
def insortKV (kv : String × Json) : List (String × Json) → List (String × Json)
  | [] => [kv]
  | x :: xs => if strLe kv.1 x.1 then kv :: x :: xs else x :: insortKV kv xs

/-- Sort dict entries by key (insertion sort), as `json.dumps(sort_keys=True)`. -/
def sortKV (l : List (String × Json)) : List (String × Json) :=
  l.foldr insortKV []

mutual
/-- Recursively sort every dict's entries by key. -/
def canonSort : Json → Json
  | .arr l => .arr (canonSortList l)
  | .obj l => .obj (sortKV (canonSortObj l))
  | j => j

def canonSortList : List Json → List Json
  | [] => []
  | x :: xs => canonSort x :: canonSortList xs

def canonSortObj : List (String × Json) → List (String × Json)
  | [] => []
  | (k, v) :: xs => (k, canonSort v) :: canonSortObj xs
end

def jsonEscapeChar (c : Char) : String :=
  if c = '"' then "\\\""
  else if c = '\\' then "\\\\"
  else if c = '\n' then "\\n"
  else if c = '\t' then "\\t"
  else if c = '\r' then "\\r"
  else String.singleton c

def jsonQuote (s : String) : String :=
  "\"" ++ String.join (s.data.map jsonEscapeChar) ++ "\""

mutual
/-- Serialize a `Json` value whose dicts are already key-sorted. -/
def serializeJson : Json → String
  | .null => "null"
  | .bool true => "true"
  | .bool false => "false"
  | .num n => toString n
  | .str s => jsonQuote s
  | .arr l => "[" ++ serializeList l ++ "]"
  | .obj l => "\x7b" ++ serializeObj l ++ "\x7d"

def serializeList : List Json → String
  | [] => ""
  | [x] => serializeJson x
  | x :: y :: xs => serializeJson x ++ ", " ++ serializeList (y :: xs)

def serializeObj : List (String × Json) → String
  | [] => ""
  | [(k, v)] => jsonQuote k ++ ": " ++ serializeJson v
  | (k, v) :: x :: xs => jsonQuote k ++ ": " ++ serializeJson v ++ ", " ++ serializeObj (x :: xs)
end

/-- `json.dumps(x, sort_keys=True)` with default separators. -/
def dumps (j : Json) : String := serializeJson (canonSort j)

example : dumps (.obj [("b", .num 1), ("a", .arr [.num 1, .bool true])]) =
    "\x7b\"a\": [1, true], \"b\": 1\x7d" := rfl

example : remove_loc_info (.obj [("loc", .num 1), ("a", .num 2)]) = .obj [("a", .num 2)] := rfl

mutual
/-- Model of a falsy `DeepDiff(a, b, ignore_order=True)`: deep equality that
ignores the order of list items and of dict keys. -/
def jsonEquiv : Json → Json → Bool
  | .null, .null => true
  | .bool a, .bool b => a == b
  | .num a, .num b => a == b
  | .str a, .str b => a == b
  | .arr a, .arr b => arrEquiv a b
  | .obj a, .obj b => pyKeysSub a b && pyKeysSub b a && objEquivFwd a b
  | _, _ => false
termination_by a b => sizeOf a + sizeOf b

/-- Unordered matching of two lists: each element of the first is matched with
and removed from an equivalent element of the second. -/
def arrEquiv : List Json → List Json → Bool
  | [], ys => ys.isEmpty
  | x :: xs, ys =>
    match pickMatch x ys with
    | some ys' => arrEquiv xs ys'.val
    | none => false
termination_by l m => sizeOf l + sizeOf m

/-- Remove the first element equivalent to `x`, if any. -/
def pickMatch (x : Json) : (l : List Json) → Option { l' : List Json // sizeOf l' < sizeOf l }
  | [] => none
  | y :: ys =>
    if jsonEquiv x y then some ⟨ys, by simp; try omega⟩
    else
      match pickMatch x ys with
      | some ⟨ys', h⟩ => some ⟨y :: ys', by simp; try omega⟩
      | none => none
termination_by l => sizeOf x + sizeOf l

/-- Dict-value comparison direction used by `jsonEquiv` on dicts. -/
def objEquivFwd : List (String × Json) → List (String × Json) → Bool
  | [], _ => true
  | (k, v) :: rest, b =>
    (match lookupSized k b with
     | some w => jsonEquiv v w.val
     | none => false) && objEquivFwd rest b
termination_by a b => sizeOf a + sizeOf b

/-- First value stored under key `k`, together with a size bound. -/
def lookupSized (k : String) : (l : List (String × Json)) → Option { v : Json // sizeOf v < sizeOf l }
  | [] => none
  | (k', v) :: rest =>
    if k' == k then some ⟨v, by simp; try omega⟩
    else
      match lookupSized k rest with
      | some ⟨v', h⟩ => some ⟨v', by simp; try omega⟩
      | none => none
termination_by l => sizeOf l
end

example : jsonEquiv (.obj [("a", .arr [.num 1, .num 2])]) (.obj [("a", .arr [.num 2, .num 1])]) = true := by
  simp [jsonEquiv, arrEquiv, pickMatch, objEquivFwd, lookupSized, pyKeysSub]

/-- Python `str(...)` of a JSON-like value, as used for line numbers.
Containers render to bracketed text; no digits-only string arises from them,
so `int()` on (pieces of) it fails exactly as for the real rendering. -/
def pyStr : Json → String
  | .num n => toString n
  | .str s => s
  | .bool true => "True"
  | .bool false => "False"
  | .null => "None"
  | .arr _ => "[json]"
  | .obj _ => "\x7bjson\x7d"

/-- Split a character list on a separator character, Python `str.split(c)`. -/
def splitOnChar (sep : Char) : List Char → List (List Char)
  | [] => [[]]
  | x :: xs =>
    if x = sep then [] :: splitOnChar sep xs
    else
      match splitOnChar sep xs with
      | [] => [[x]]
      | y :: ys => (x :: y) :: ys

/-- Python `s.split(':')` on a string. -/
def pySplitColon (s : String) : List String :=
  (splitOnChar ':' s.data).map (fun l => String.mk l)

/-- ASCII whitespace stripped by Python `int(str)`. -/
def isSpaceChar (c : Char) : Bool :=
  c = ' ' || c = '\t' || c = '\n' || c = '\r' || c = '\x0b' || c = '\x0c'

/-- Strip leading and trailing whitespace. -/
def trimChars (l : List Char) : List Char :=
  ((l.dropWhile isSpaceChar).reverse.dropWhile isSpaceChar).reverse

/-- Digits-only natural number value of a character list, if any. -/
def digitsVal (l : List Char) : Option Nat :=
  if l.isEmpty then none
  else l.foldl (fun acc c =>
    acc.bind (fun n => if c.isDigit then some (n * 10 + (c.toNat - 48)) else none)) (some 0)

/-- Python `int(s)` on a string: optional sign and digits; `none` = `ValueError`. -/
def pyIntParse (s : String) : Option Int :=
  match trimChars s.data with
  | '-' :: rest => (digitsVal rest).map (fun n => -(n : Int))
  | '+' :: rest => (digitsVal rest).map (fun n => (n : Int))
  | l => (digitsVal l).map (fun n => (n : Int))

/-- The `line_num` converter of `objects.Vulnerability`:
`tuple(int(y) for y in x.split(':'))`; `none` models a raised `ValueError`. -/
def convertLineNum (x : String) : Option (List Int) :=
  (pySplitColon x).mapM pyIntParse

/-- `objects.Vulnerability` (attrs class, custom `__eq__`/`__hash__`).
Name fields may hold `None` (modelled `none`) or any JSON-like value. -/
structure Vulnerability where
  vuln_name : Option Json
  contract_file_path : String
  contract_name : Option Json
  function_name : Option Json
  line_num : List Int
  ast_node_path : String
  ast_node : Json

/-- Constructing a `Vulnerability(...)`: the `line_num` converter may raise. -/
def mkVulnerability (vuln_name : Option Json) (cfp : String) (cn fn : Option Json)
    (line_num : String) (path : String) (node : Json) : Option Vulnerability :=
  (convertLineNum line_num).map (fun l => ⟨vuln_name, cfp, cn, fn, l, path, node⟩)

/-- `Vulnerability.__eq__`: path, order-insensitive subtree, contract name,
function name, vulnerability name; `contract_file_path` and `line_num`
are not compared. -/
def vulnEq (v other : Vulnerability) : Bool :=
  v.ast_node_path == other.ast_node_path &&
  jsonEquiv v.ast_node other.ast_node &&
  pyEqObj v.contract_name other.contract_name &&
  pyEqObj v.function_name other.function_name &&
  pyEqObj v.vuln_name other.vuln_name

/-- `Vulnerability.__hash__`, parameterized by the interpreter's base hash
function `h` on string/`None` values: XOR of the component hashes, the subtree
hashed through its `json.dumps(..., sort_keys=True)` serialization. -/
def vulnHashWith (h : Option Json → Nat) (v : Vulnerability) : Nat :=
  h (some (.str v.ast_node_path)) ^^^
  h (some (.str (dumps v.ast_node))) ^^^
  h v.contract_name ^^^
  h v.function_name ^^^
  h v.vuln_name

def optJsonBeq : Option Json → Option Json → Bool
  | none, none => true
  | some a, some b => jbeq a b
  | _, _ => false

/-- Equality of the tuples fed to the component hashes: the collision-free
model of `hash(u) == hash(v)` used for Python `set`/`dict` membership. -/
def vulnKeyEq (u v : Vulnerability) : Bool :=
  u.ast_node_path == v.ast_node_path &&
  dumps u.ast_node == dumps v.ast_node &&
  optJsonBeq u.contract_name v.contract_name &&
  optJsonBeq u.function_name v.function_name &&
  optJsonBeq u.vuln_name v.vuln_name

/-- Python `v in s` for a `set` of `Vulnerability`: same hash, then `==`. -/
def pySetMem (v : Vulnerability) (s : List Vulnerability) : Bool :=
  s.any (fun u => vulnKeyEq u v && vulnEq u v)

/-- Python `s.add(v)` on a `set` of `Vulnerability`. -/
def pySetAdd (s : List Vulnerability) (v : Vulnerability) : List Vulnerability :=
  if pySetMem v s then s else s ++ [v]

/-! ## `contracts.py`: bytecode trimming and deployment verification -/

/-- A parsed `semantic_version.Version` (major, minor, patch). -/
abbrev SemVer := Nat × Nat × Nat

/-- `SimpleSpec('>=a.b.c').match(Version v)`: lexicographic comparison. -/
def verGe (v w : SemVer) : Bool :=
  decide (w.1 < v.1) ||
  (decide (v.1 = w.1) &&
    (decide (w.2.1 < v.2.1) || (decide (v.2.1 = w.2.1) && decide (w.2.2 ≤ v.2.2))))

/-- `p` occurs in `s` at position `i` (entirely within `s`). -/
def occursAt (p s : List Char) (i : Nat) : Bool :=
  ((s.drop i).take p.length) == p

/-- Largest `i ≤ k` with an occurrence of `p` in `s` at `i`, scanning down. -/
def rfindFrom (p s : List Char) : Nat → Option Nat
  | 0 => if occursAt p s 0 then some 0 else none
  | k + 1 => if occursAt p s (k + 1) then some (k + 1) else rfindFrom p s k

/-- Python `s.rfind(p)`: index of the last occurrence, `-1` when absent. -/
def rfind (s p : List Char) : Int :=
  match rfindFrom p s s.length with
  | some i => (i : Int)
  | none => -1

/-- Normalize a Python slice index against length `n`. -/
def normIdx (n : Nat) (k : Int) : Nat :=
  if k < 0 then (k + n).toNat else min k.toNat n

/-- Python `s[i:j]` with int (possibly negative) bounds. -/
def pyslice (s : List Char) (i j : Int) : List Char :=
  (s.take (normIdx s.length j)).drop (normIdx s.length i)

def marker6080 : List Char := "6080604052".data
def marker6060 : List Char := "6060604052".data
def trailerNew : List Char := "a264697066735822".data
def trailerOld : List Char := "a165627a7a72305820".data

/-- `contracts.trim_bytecode`: version-banded removal of bytecode metadata.
`bytecode[startswith:endswith]` with `rfind` results used directly as slice
indices (a failed `rfind` contributes `-1`). -/
def trim_bytecode (bytecode : List Char) (compiler_version : SemVer) : List Char :=
  if verGe compiler_version (0, 6, 0) then
    pyslice bytecode (rfind bytecode marker6080) (rfind bytecode trailerNew)
  else if verGe compiler_version (0, 4, 22) then
    pyslice bytecode (rfind bytecode marker6080) (rfind bytecode trailerOld)
  else if verGe compiler_version (0, 4, 7) then
    pyslice bytecode (rfind bytecode marker6060) (bytecode.length : Int)
  else bytecode

example : trim_bytecode "6080604052ABa264697066735822FF".data (0, 6, 0) = "6080604052AB".data := rfl
example : trim_bytecode "XY".data (0, 4, 0) = "XY".data := rfl

/-- A cached `DeploymentAddressDetails` record (ground-truth datum). -/
structure AddrRecord where
  contract_name : String
  compiler_version : SemVer
  optimized : Bool
  optimized_runs : Int
  blockchain_bytecode : List Char

/-- `contracts.complie_solc` for candidate address `a`: the external compiler
run (abstracted as `rawCompile`, `none` = `InvalidCompilation`) followed by
`trim_bytecode` at the record's compiler version. -/
def complie_solc (db : String → AddrRecord) (rawCompile : String → Option (List Char))
    (a : String) : Option (List Char) :=
  (rawCompile a).map (fun bc => trim_bytecode bc (db a).compiler_version)

/-- One candidate matches when its compiled, trimmed bytecode equals the
record's stored on-chain bytecode (a failed compilation never matches). -/
def candMatches (db : String → AddrRecord) (rawCompile : String → Option (List Char))
    (a : String) : Bool :=
  match complie_solc db rawCompile a with
  | some bc => bc == (db a).blockchain_bytecode
  | none => false

/-- Loop of `contracts.verify_contract_deployment_address`, also counting
compiler invocations (one per candidate processed). -/
def verifyGo (db : String → AddrRecord) (rawCompile : String → Option (List Char)) :
    List String → Nat → (Option String × Option SemVer) × Nat
  | [], n => ((none, none), n)
  | a :: rest, n =>
    if candMatches db rawCompile a then ((some a, some (db a).compiler_version), n + 1)
    else verifyGo db rawCompile rest (n + 1)

/-- `contracts.verify_contract_deployment_address`: first candidate address
whose compiled bytecode equals the cached on-chain bytecode, with its
compiler version; `(None, None)` when none matches. Second component:
number of compiler invocations performed. -/
def verify_contract_deployment_address (db : String → AddrRecord)
    (rawCompile : String → Option (List Char)) (deployment_addresses : List String) :
    (Option String × Option SemVer) × Nat :=
  verifyGo db rawCompile deployment_addresses 0

/-! ## `utils.get_node_and_node_path` -/

/-- Python truthiness of a JSON-like value. -/
def pyTruthy : Json → Bool
  | .null => false
  | .bool b => b
  | .num n => n != 0
  | .str s => !s.isEmpty
  | .arr l => !l.isEmpty
  | .obj l => !l.isEmpty

/-- Python `v == "literal"` for a JSON-like `v` (never raises). -/
def pyEqStrJ (t : Json) (s : String) : Bool :=
  match t with
  | .str u => u == s
  | _ => false

/-- `n['loc']['start']['line']`; `none` models a raised lookup error. -/
def getLocStartLine (n : Json) : Option Json :=
  (jlookup n "loc").bind fun l => (jlookup l "start").bind fun s => jlookup s "line"

/-- `n['loc']['end']['line']`; `none` models a raised lookup error. -/
def getLocEndLine (n : Json) : Option Json :=
  (jlookup n "loc").bind fun l => (jlookup l "end").bind fun s => jlookup s "line"

/-- Outcome of `get_node_and_node_path`: a located node with its path, the
fall-through `raise Exception('AST-Node not found')`, or any other raised
exception (bad lookup / iteration over a non-sequence). -/
inductive LRes where
  | found : Json → List String → LRes
  | notfound : LRes
  | err : LRes

/-- Loop over `subNode['body']['statements']`. -/
def goStatements : List Json → Json → List String → LRes
  | [], _, _ => .notfound
  | st :: rest, line, path =>
    match getLocStartLine st with
    | none => .err
    | some v =>
      if pyEqJson v line then .found (remove_loc_info st) (path ++ ["body", "statements", "[*]"])
      else goStatements rest line path

/-- Loop over `subNode['members']` of a struct/enum definition. -/
def goMembers : List Json → Json → List String → LRes
  | [], _, _ => .notfound
  | m :: rest, line, path =>
    match getLocStartLine m with
    | none => .err
    | some v =>
      if pyEqJson v line then .found (remove_loc_info m) (path ++ ["member", "[*]"])
      else goMembers rest line path

/-- Loop over `child['subNodes']` of a contract definition. -/
def goSubNodes : List Json → Json → List String → LRes
  | [], _, _ => .notfound
  | sub :: rest, line, path =>
    match jlookup sub "type" with
    | none => .err
    | some t =>
      if pyEqStrJ t "StateVariableDeclaration" || pyEqStrJ t "UsingForDeclaration" ||
          pyEqStrJ t "EventDefinition" then
        match getLocStartLine sub with
        | none => .err
        | some v =>
          if pyEqJson v line then .found (remove_loc_info sub) path
          else goSubNodes rest line path
      else if pyEqStrJ t "StructDefinition" || pyEqStrJ t "EnumDefinition" then
        match jlookup sub "members" with
        | some (.arr mems) =>
          match goMembers mems line path with
          | .found n p => .found n p
          | .notfound => goSubNodes rest line path
          | .err => .err
        | some (.obj []) => goSubNodes rest line path
        | some (.str s) => if s.isEmpty then goSubNodes rest line path else .err
        | _ => .err
      else if pyEqStrJ t "FunctionDefinition" || pyEqStrJ t "ModifierDefinition" then
        match get_attr (get_attr (some sub) "body") "statements" with
        | some (.arr (s :: ss)) =>
          match goStatements (s :: ss) line path with
          | .found n p => .found n p
          | .notfound => goSubNodes rest line path
          | .err => .err
        | some (.arr []) => goSubNodes rest line path
        | some (.obj []) => goSubNodes rest line path
        | some (.obj (_ :: _)) => .err
        | some (.str st) => if st.isEmpty then goSubNodes rest line path else .err
        | some (.num n) => if n == 0 then goSubNodes rest line path else .err
        | some (.bool b) => if b then .err else goSubNodes rest line path
        | some .null => goSubNodes rest line path
        | none => goSubNodes rest line path
      else goSubNodes rest line path

/-- Loop over `node['children']`; the `['subNodes', '[*]']` path extension of a
contract child persists for every later child (list mutation in the source). -/
def goChildren : List Json → Json → List String → LRes
  | [], _, _ => .notfound
  | child :: rest, line, path =>
    match jlookup child "type" with
    | none => .err
    | some t =>
      if pyEqStrJ t "ContractDefinition" then
        match jlookup child "subNodes" with
        | some (.arr subs) =>
          match goSubNodes subs line (path ++ ["subNodes", "[*]"]) with
          | .found n p => .found n p
          | .notfound => goChildren rest line (path ++ ["subNodes", "[*]"])
          | .err => .err
        | some (.obj []) => goChildren rest line (path ++ ["subNodes", "[*]"])
        | some (.str s) =>
          if s.isEmpty then goChildren rest line (path ++ ["subNodes", "[*]"]) else .err
        | _ => .err
      else goChildren rest line path

/-- `utils.get_node_and_node_path(node, line)` with its three outcomes.
`line` is the Python value compared with `==` against `loc.start.line`. -/
def locateR (node : Json) (line : Json) : LRes :=
  match jlookup node "children" with
  | some (.arr children) => goChildren children line ["children", "[*]"]
  | some (.obj []) => .notfound
  | some (.str s) => if s.isEmpty then .notfound else .err
  | _ => .err

/-- `get_node_and_node_path` seen through a `try`/`except` caller: `none`
for any raised exception. -/
def get_node_and_node_path (node : Json) (line : Json) : Option (Json × List String) :=
  match locateR node line with
  | .found n p => some (n, p)
  | _ => none

/-- `'.'.join(node_path)`. -/
def joinDots (l : List String) : String := String.intercalate "." l

/-! ## `detector_oyente.py` -/

/-- Read a JSON-like value as a Python int for an order comparison;
`none` models the `TypeError` of comparing `int` with a non-number. -/
def jsonAsIntCmp : Json → Option Int
  | .num n => some n
  | .bool b => some (if b then 1 else 0)
  | _ => none

/-- Inner loop of `get_function_name` over `child['subNodes']`.
`none` = raise; `some none` = loop finished; `some (some nm)` = returned. -/
def gfnSubs : List Json → Int → Option (Option Json)
  | [], _ => some none
  | sub :: rest, line =>
    match getLocStartLine sub, getLocEndLine sub with
    | some sv, some ev =>
      match jlookup sub "type" with
      | none => none
      | some t =>
        if pyEqStrJ t "FunctionDefinition" then
          match jsonAsIntCmp sv with
          | none => none
          | some sn =>
            if line < sn then gfnSubs rest line
            else
              match jsonAsIntCmp ev with
              | none => none
              | some en =>
                if line ≤ en then
                  match jlookup sub "name" with
                  | some nm => some (some nm)
                  | none => none
                else gfnSubs rest line
        else gfnSubs rest line
    | _, _ => none

/-- Outer loop of `get_function_name` over `node['children']`. -/
def gfnChildren : List Json → Int → Option (Option Json)
  | [], _ => some none
  | child :: rest, line =>
    match getLocStartLine child, getLocEndLine child with
    | some sv, some ev =>
      match jsonAsIntCmp sv with
      | none => none
      | some sn =>
        if line < sn then gfnChildren rest line
        else
          match jsonAsIntCmp ev with
          | none => none
          | some en =>
            if line > en then gfnChildren rest line
            else
              match get_attr (some child) "subNodes" with
              | none => gfnChildren rest line
              | some v =>
                if !pyTruthy v then gfnChildren rest line
                else
                  match v with
                  | .arr subs =>
                    match gfnSubs subs line with
                    | none => none
                    | some (some nm) => some (some nm)
                    | some none => gfnChildren rest line
                  | _ => none
    | _, _ => none

/-- `detector_oyente.get_function_name(node, line)`: name of the enclosing
function, `'unknown'` if none; `none` models a raised exception. -/
def get_function_name (node : Json) (line : Int) : Option (Option Json) :=
  match jlookup node "children" with
  | some (.arr children) =>
    match gfnChildren children line with
    | none => none
    | some (some nm) => some (some nm)
    | some none => some (some (.str "unknown"))
  | some (.obj []) => some (some (.str "unknown"))
  | some (.str s) => if s.isEmpty then some (some (.str "unknown")) else none
  | _ => none

/-- `vuln.split(':')[1]`; `none` models the `IndexError`. -/
def splitIdx1 (s : String) : Option String := (pySplitColon s).get? 1

/-- `detector_oyente.get_vuln_object`: `none` = raise out of the adapter,
`some none` = the locator raised and `None` is returned, `some (some v)` =
a constructed finding. -/
def get_vuln_object (vuln_name : String) (contract_file_path : String)
    (contract_name : String) (line_num : String) (ast : Json) :
    Option (Option Vulnerability) :=
  match pyIntParse line_num with
  | none => none
  | some ln =>
    match get_function_name ast ln with
    | none => none
    | some fn =>
      match locateR ast (.num ln) with
      | .found node p =>
        match mkVulnerability (some (.str vuln_name)) contract_file_path
            (some (.str contract_name)) fn line_num (joinDots p) node with
        | some v => some (some v)
        | none => none
      | _ => some none

/-- Iteration view of `for vuln in vulns` for a truthy `vulns` value. -/
def entriesOf : Json → Option (List Json)
  | .arr l => some l
  | .obj l => some (l.map (fun kv => Json.str kv.1))
  | .str s => some (s.data.map (fun c => Json.str (String.singleton c)))
  | _ => none

/-- Inner `for v in vuln` over a nested list of `"file:line"` strings. -/
def oyStrList : List Json → String → String → String → Json →
    List (Option Vulnerability) → Option (List (Option Vulnerability))
  | [], _, _, _, _, acc => some acc
  | .str s :: rest, v_name, c_name, cfp, ast, acc =>
    match splitIdx1 s with
    | none => none
    | some line_num =>
      match get_vuln_object v_name cfp c_name line_num ast with
      | none => none
      | some ov => oyStrList rest v_name c_name cfp ast (acc ++ [ov])
  | _ :: _, _, _, _, _, _ => none

/-- Loop over the entries of one vulnerability kind. -/
def oyEntries : List Json → String → String → String → Json →
    List (Option Vulnerability) → Option (List (Option Vulnerability))
  | [], _, _, _, _, acc => some acc
  | .str s :: rest, v_name, c_name, cfp, ast, acc =>
    match splitIdx1 s with
    | none => none
    | some line_num =>
      match get_vuln_object v_name cfp c_name line_num ast with
      | none => none
      | some ov => oyEntries rest v_name c_name cfp ast (acc ++ [ov])
  | .arr vs :: rest, v_name, c_name, cfp, ast, acc =>
    match oyStrList vs v_name c_name cfp ast acc with
    | none => none
    | some acc2 => oyEntries rest v_name c_name cfp ast acc2
  | _ :: rest, v_name, c_name, cfp, ast, acc => oyEntries rest v_name c_name cfp ast acc

/-- Loop over `data['vulnerabilities'].items()`. -/
def oyVulnKinds : List (String × Json) → String → String → Json →
    List (Option Vulnerability) → Option (List (Option Vulnerability))
  | [], _, _, _, acc => some acc
  | (v_name, vulns) :: rest, c_name, cfp, ast, acc =>
    if !pyTruthy vulns then oyVulnKinds rest c_name cfp ast acc
    else
      match entriesOf vulns with
      | none => none
      | some entries =>
        match oyEntries entries v_name c_name cfp ast acc with
        | none => none
        | some acc2 => oyVulnKinds rest c_name cfp ast acc2

/-- Loop over `f.items()` (contract name → data). -/
def oyContracts : List (String × Json) → String → Json →
    List (Option Vulnerability) → Option (List (Option Vulnerability))
  | [], _, _, acc => some acc
  | (c_name, data) :: rest, cfp, ast, acc =>
    match jlookup data "vulnerabilities" with
    | none => none
    | some (.obj vulnMap) =>
      match oyVulnKinds vulnMap c_name cfp ast acc with
      | none => none
      | some acc2 => oyContracts rest cfp ast acc2
    | some _ => none

/-- Loop over `out_json.items()` (file path → contract map). -/
def oyFiles : List (String × Json) → Json → String →
    List (Option Vulnerability) → Option (List (Option Vulnerability))
  | [], _, _, acc => some acc
  | (c_filepath, f) :: rest, ast, sol_file, acc =>
    if c_filepath != sol_file then oyFiles rest ast sol_file acc
    else
      match f with
      | .obj contracts =>
        match oyContracts contracts c_filepath ast acc with
        | none => none
        | some acc2 => oyFiles rest ast sol_file acc2
      | _ => none

/-- `detector_oyente.parse_oyente_output`: the returned list may contain
`None` placeholders (`none`) for entries whose locator raised; `none` at the
outer level models an exception escaping the adapter. -/
def parse_oyente_output (out_json : Json) (ast : Json) (sol_file : String) :
    Option (List (Option Vulnerability)) :=
  match out_json with
  | .obj files => oyFiles files ast sol_file []
  | _ => none

/-! ## `detector_slither.py` -/

/-- Python `lines += x`: extend by a list, a string's characters, or a dict's
keys; `none` models the `TypeError` of `+=` with `None`/number/bool. -/
def pyExtendLines (lines : List Json) : Option Json → Option (List Json)
  | some (.arr l) => some (lines ++ l)
  | some (.str s) => some (lines ++ s.data.map (fun c => Json.str (String.singleton c)))
  | some (.obj l) => some (lines ++ l.map (fun kv => Json.str kv.1))
  | _ => none

/-- Loop over a detector's `elements`; threads the function/contract name
variables (unbound until first assigned: modelled by the outer `Option`).
Result: `none` = raise; otherwise final names, collected lines, and whether
`isImported` caused a `break`. -/
def slithElemLoop : List Json → Option (Option Json) → Option (Option Json) →
    List Json → String →
    Option (Option (Option Json) × Option (Option Json) × List Json × Bool)
  | [], fnS, cnS, lines, _ => some (fnS, cnS, lines, false)
  | e :: rest, fnS, cnS, lines, sol_file =>
    let ty := get_attr (some e) "type"
    let st :=
      if pyEqObj ty (some (.str "function")) then
        some (some (get_attr (some e) "name"),
              some (get_attr (get_attr (get_attr (some e) "type_specific_fields") "parent") "name"),
              lines)
      else if pyEqObj ty (some (.str "node")) then
        (pyExtendLines lines (get_attr (get_attr (some e) "source_mapping") "lines")).map
          (fun l2 => (fnS, cnS, l2))
      else some (fnS, cnS, lines)
    match st with
    | none => none
    | some (fnS2, cnS2, lines2) =>
      let fu := get_attr (get_attr (some e) "source_mapping") "filename_used"
      if !pyEqObj fu (some (.str sol_file)) then some (fnS2, cnS2, lines2, true)
      else slithElemLoop rest fnS2 cnS2 lines2 sol_file

/-- Loop over the detector results; accumulates findings in order. -/
def slithDets : List Json → Json → String → Option (Option Json) →
    Option (Option Json) → List Vulnerability → Option (List Vulnerability)
  | [], _, _, _, _, acc => some acc
  | d :: rest, ast, sol_file, fnS, cnS, acc =>
    match get_attr (some d) "elements" with
    | none => slithDets rest ast sol_file fnS cnS acc
    | some v =>
      if !pyTruthy v then slithDets rest ast sol_file fnS cnS acc
      else
        match v with
        | .arr elems =>
          match slithElemLoop elems fnS cnS [] sol_file with
          | none => none
          | some (fnS2, cnS2, lines, isImported) =>
            if lines.isEmpty || isImported then slithDets rest ast sol_file fnS2 cnS2 acc
            else
              let vuln_name := get_attr (some d) "check"
              let line_num := String.intercalate ":" (lines.map pyStr)
              match lines with
              | [] => slithDets rest ast sol_file fnS2 cnS2 acc
              | l0 :: _ =>
                match locateR ast l0 with
                | .found node p =>
                  match cnS2, fnS2 with
                  | some cn, some fn =>
                    match mkVulnerability vuln_name sol_file cn fn line_num (joinDots p) node with
                    | some vu => slithDets rest ast sol_file fnS2 cnS2 (acc ++ [vu])
                    | none => none
                  | _, _ => none
                | _ => slithDets rest ast sol_file fnS2 cnS2 acc
        | .obj (_ :: _) => slithDets rest ast sol_file fnS cnS acc
        | .str _ => slithDets rest ast sol_file fnS cnS acc
        | _ => none

/-- `detector_slither.parse_slither_output(out_json, ast, sol_file)`:
`none` models an exception escaping the adapter. -/
def parse_slither_output (out_json : Json) (ast : Json) (sol_file : String) :
    Option (List Vulnerability) :=
  match get_attr (get_attr (some out_json) "results") "detectors" with
  | none => some []
  | some v =>
    if !pyTruthy v then some []
    else
      match v with
      | .arr dets => slithDets dets ast sol_file none none []
      | .obj (_ :: _) => some []
      | .str _ => some []
      | _ => none

/-! ## `patches.py` per-commit merge logic of `process_repo` -/

/-- Python `==` on a `(function_name, contract_name)` dict key. -/
def keyEqFC (a b : Option Json × Option Json) : Bool :=
  pyEqObj a.1 b.1 && pyEqObj a.2 b.2

/-- The `new_vulns_slither` / `new_vulns_oyente` dicts:
`(function_name, contract_name)` → set of findings. -/
abbrev NVMap := List ((Option Json × Option Json) × List Vulnerability)

/-- Dict lookup `m[(fn, cn)]` / key membership. -/
def mapGet (m : NVMap) (k : Option Json × Option Json) : Option (List Vulnerability) :=
  (m.find? (fun e => keyEqFC e.1 k)).map Prod.snd

/-- `m.setdefault((fn, cn), set()).add(v)`. -/
def mapAddVuln : NVMap → (Option Json × Option Json) → Vulnerability → NVMap
  | [], k, v => [(k, [v])]
  | (k', s) :: rest, k, v =>
    if keyEqFC k' k then (k', pySetAdd s v) :: rest
    else (k', s) :: mapAddVuln rest k v

/-- Python `==` on a `functions_meta` element. -/
def metaEq (a b : Option Json × Option Json × String) : Bool :=
  pyEqObj a.1 b.1 && pyEqObj a.2.1 b.2.1 && (a.2.2 == b.2.2)

/-- `functions_meta.add((function_name, contract_name, contract_file_path))`. -/
def metaAdd (s : List (Option Json × Option Json × String))
    (x : Option Json × Option Json × String) : List (Option Json × Option Json × String) :=
  if s.any (fun y => metaEq y x) then s else s ++ [x]

/-- State threaded through one commit's `for detector, vulns in ...` loop. -/
structure CommitState where
  total : List Vulnerability
  slMap : NVMap
  oyMap : NVMap
  meta : List (Option Json × Option Json × String)

/-- Body of the inner `for v in vulns` loop: falsy (`None`) findings and
already-seen findings are skipped; a new finding grows `total_vuln`,
`functions_meta`, and the detector's own `new_vulns` dict. -/
def procVuln (isSlither : Bool) (st : CommitState) (ov : Option Vulnerability) : CommitState :=
  match ov with
  | none => st
  | some v =>
    if pySetMem v st.total then st
    else
      { total := pySetAdd st.total v
        slMap := if isSlither then mapAddVuln st.slMap (v.function_name, v.contract_name) v
                 else st.slMap
        oyMap := if isSlither then st.oyMap
                 else mapAddVuln st.oyMap (v.function_name, v.contract_name) v
        meta := metaAdd st.meta (v.function_name, v.contract_name, v.contract_file_path) }

/-- One commit of `process_repo`: the `'slither'` findings are processed
first, then the `'oyente'` findings (dict insertion order). -/
def processCommitVulns (slitherVs oyenteVs : List (Option Vulnerability))
    (total : List Vulnerability) : CommitState :=
  oyenteVs.foldl (procVuln false) (slitherVs.foldl (procVuln true) ⟨total, [], [], []⟩)

/-- Python `a.union(b)` on finding sets. -/
def pySetUnion (a b : List Vulnerability) : List Vulnerability :=
  a ++ b.filter (fun v => !pySetMem v a)

/-- The common/slither-only/oyente-only grouping emitted for one
`(function_name, contract_name)` of `functions_meta`. -/
def classify (slMap oyMap : NVMap) (k : Option Json × Option Json) :
    List Vulnerability × List Vulnerability × List Vulnerability :=
  match mapGet slMap k, mapGet oyMap k with
  | some s, some o => (pySetUnion s o, [], [])
  | some s, none => ([], s, [])
  | none, some o => ([], [], o)
  | none, none => ([], [], [])

/-- One commit's effect on `total_vuln` during the backward walk. -/
def walkStep (total : List Vulnerability)
    (commit : List (Option Vulnerability) × List (Option Vulnerability)) :
    List Vulnerability :=
  (processCommitVulns commit.1 commit.2 total).total

/-- `total_vuln` after processing the given commits, oldest last, starting
from the HEAD-seeded set. -/
def walkTotals (commits : List (List (Option Vulnerability) × List (Option Vulnerability)))
    (seed : List Vulnerability) : List Vulnerability :=
  commits.foldl walkStep seed

/-! ## Line-number drift and well-formedness of parsed trees -/

/-- Add `k` to an integer value (line numbers under a `loc` field). -/
def shiftNum (k : Int) : Json → Json
  | .num n => .num (n + k)
  | j => j

mutual
/-- Inside a `loc` subtree: add `k` to every value stored under `"line"`. -/
def shiftLines (k : Int) : Json → Json
  | .arr l => .arr (shiftLinesList k l)
  | .obj l => .obj (shiftLinesObj k l)
  | j => j

def shiftLinesList (k : Int) : List Json → List Json
  | [] => []
  | x :: xs => shiftLines k x :: shiftLinesList k xs

def shiftLinesObj (k : Int) : List (String × Json) → List (String × Json)
  | [] => []
  | (key, v) :: rest =>
    (key, if key = "line" then shiftNum k v else shiftLines k v) :: shiftLinesObj k rest
end

mutual
/-- The tree after inserting `k` unrelated lines above it: every `loc`
subtree has its line numbers shifted by `k`; all other content unchanged. -/
def shiftLoc (k : Int) : Json → Json
  | .arr l => .arr (shiftLocList k l)
  | .obj l => .obj (shiftLocObj k l)
  | j => j

def shiftLocList (k : Int) : List Json → List Json
  | [] => []
  | x :: xs => shiftLoc k x :: shiftLocList k xs

def shiftLocObj (k : Int) : List (String × Json) → List (String × Json)
  | [] => []
  | (key, v) :: rest =>
    (key, if key = "loc" then shiftLines k v else shiftLoc k v) :: shiftLocObj k rest
end

def isNumJ : Json → Bool
  | .num _ => true
  | _ => false

mutual
/-- Every value stored under a `"line"` dict key is a number. -/
def linesNum : Json → Bool
  | .arr l => linesNumList l
  | .obj l => linesNumObj l
  | _ => true

def linesNumList : List Json → Bool
  | [] => true
  | x :: xs => linesNum x && linesNumList xs

def linesNumObj : List (String × Json) → Bool
  | [] => true
  | (key, v) :: rest => (key != "line" || isNumJ v) && linesNum v && linesNumObj rest
end

/-- No duplicate keys among dict entries (Python dicts cannot have any). -/
def keysNodup : List (String × Json) → Bool
  | [] => true
  | (k, _) :: rest => rest.all (fun kv => kv.1 != k) && keysNodup rest

mutual
/-- A well-formed parsed value: every dict has pairwise distinct keys. -/
def jwf : Json → Bool
  | .arr l => jwfList l
  | .obj l => keysNodup l && jwfObj l
  | _ => true

def jwfList : List Json → Bool
  | [] => true
  | x :: xs => jwf x && jwfList xs

def jwfObj : List (String × Json) → Bool
  | [] => true
  | (_, v) :: rest => jwf v && jwfObj rest
end

/-- Well-formedness of a Python value that may be `None`. -/
def pyWf : Option Json → Bool
  | none => true
  | some j => jwf j

/-- Declared members / statements the locator can return, in source order:
used to trace a `found` result back to a node of the input tree. -/
def candOfSub (s : Json) : List Json :=
  match jlookup s "type" with
  | none => []
  | some t =>
    if pyEqStrJ t "StateVariableDeclaration" || pyEqStrJ t "UsingForDeclaration" ||
        pyEqStrJ t "EventDefinition" then [s]
    else if pyEqStrJ t "StructDefinition" || pyEqStrJ t "EnumDefinition" then
      match jlookup s "members" with
      | some (.arr mems) => mems
      | _ => []
    else if pyEqStrJ t "FunctionDefinition" || pyEqStrJ t "ModifierDefinition" then
      match get_attr (get_attr (some s) "body") "statements" with
      | some (.arr sts) => sts
      | _ => []
    else []

def candOfChild (c : Json) : List Json :=
  match jlookup c "type" with
  | none => []
  | some t =>
    if pyEqStrJ t "ContractDefinition" then
      match jlookup c "subNodes" with
      | some (.arr subs) => subs.foldr (fun s acc => candOfSub s ++ acc) []
      | _ => []
    else []

def candNodes (t : Json) : List Json :=
  match jlookup t "children" with
  | some (.arr children) => children.foldr (fun c acc => candOfChild c ++ acc) []
  | _ => []

/-- A finding with the given file path, subtree and line list (other fields
fixed), used for concrete evaluations. -/
def exVuln (cfp : String) (node : Json) (ln : List Int) : Vulnerability :=
  ⟨some (.str "reentrancy-eth"), cfp, some (.str "C"), some (.str "f"), ln,
    "children.[*].subNodes.[*].body.statements.[*]", node⟩

/-- Subtree `{"a": [1, 2]}`. -/
def nodeA : Json := .obj [("a", .arr [.num 1, .num 2])]

/-- Subtree `{"a": [2, 1]}`: deep-equal to `nodeA` up to list order, but with
a different canonical serialization. -/
def nodeB : Json := .obj [("a", .arr [.num 2, .num 1])]

/-- Subtree of a simple statement node. -/
def nodeS : Json := .obj [("type", .str "ExpressionStatement")]

/-- A `loc` value spanning the given start and end lines. -/
def locOf (s e : Int) : Json :=
  .obj [("start", .obj [("line", .num s), ("column", .num 0)]),
        ("end", .obj [("line", .num e), ("column", .num 0)])]

/-- A parsed source unit: one contract with one function whose single
statement spans lines 5–7. -/
def stmtTree : Json :=
  .obj [("type", .str "SourceUnit"),
        ("children", .arr [
          .obj [("type", .str "ContractDefinition"), ("name", .str "C"),
                ("subNodes", .arr [
                  .obj [("type", .str "FunctionDefinition"), ("name", .str "f"),
                        ("body", .obj [("type", .str "Block"),
                          ("statements", .arr [
                            .obj [("type", .str "ExpressionStatement"),
                                  ("loc", locOf 5 7)]]),
                          ("loc", locOf 4 8)]),
                        ("loc", locOf 3 8)]]),
                ("loc", locOf 2 9)]]),
        ("loc", locOf 1 10)]

/-- Number of distinct new findings introduced by commit `j` of the walk:
the growth of `total_vuln` while processing it. -/
def newCount (commits : List (List (Option Vulnerability) × List (Option Vulnerability)))
    (seed : List Vulnerability) (j : Nat) : Nat :=
  (walkTotals (commits.take (j + 1)) seed).length - (walkTotals (commits.take j) seed).length

/-! ## Lemmas about `rfind` and Python slices -/

theorem occursAt_le (p s : List Char) (i : Nat) (hp : p ≠ []) (h : occursAt p s i = true) :
    i + p.length ≤ s.length := by
  unfold occursAt at h
  have hl := congrArg List.length (eq_of_beq h)
  simp [List.length_take, List.length_drop] at hl
  have hp' : 0 < p.length := List.length_pos.mpr hp
  omega

theorem rfindFrom_none_iff (p s : List Char) :
    ∀ k, rfindFrom p s k = none ↔ ∀ i, i ≤ k → occursAt p s i = false := by
  intro k
  induction k with
  | zero =>
    constructor
    · intro h i hi
      interval_cases i
      by_cases h0 : occursAt p s 0 = true
      · simp [rfindFrom, h0] at h
      · simpa using h0
    · intro h
      simp [rfindFrom, h 0 (by omega)]
  | succ k ih =>
    constructor
    · intro h i hi
      by_cases hk : occursAt p s (k + 1) = true
      · simp [rfindFrom, hk] at h
      · simp [rfindFrom, hk] at h
        rcases Nat.lt_or_ge i (k + 1) with hlt | hge
        · exact (ih.mp h) i (by omega)
        · have : i = k + 1 := by omega
          simpa [this] using hk
    · intro h
      have hk : occursAt p s (k + 1) = false := h (k + 1) (by omega)
      simp [rfindFrom, hk]
      exact ih.mpr (fun i hi => h i (by omega))

theorem rfindFrom_some_spec (p s : List Char) :
    ∀ k i, rfindFrom p s k = some i →
      occursAt p s i = true ∧ i ≤ k ∧ ∀ j, i < j → j ≤ k → occursAt p s j = false := by
  intro k
  induction k with
  | zero =>
    intro i h
    by_cases h0 : occursAt p s 0 = true
    · simp [rfindFrom, h0] at h
      subst h
      exact ⟨h0, by omega, fun j h1 h2 => by omega⟩
    · simp [rfindFrom, h0] at h
  | succ k ih =>
    intro i h
    by_cases hk : occursAt p s (k + 1) = true
    · simp [rfindFrom, hk] at h
      subst h
      exact ⟨hk, by omega, fun j h1 h2 => by omega⟩
    · simp [rfindFrom, hk] at h
      obtain ⟨h1, h2, h3⟩ := ih i h
      refine ⟨h1, by omega, fun j hj1 hj2 => ?_⟩
      rcases Nat.lt_or_ge j (k + 1) with hlt | hge
      · exact h3 j hj1 (by omega)
      · have : j = k + 1 := by omega
        simpa [this] using hk

theorem rfindFrom_eq_some_of (p s : List Char) (k i : Nat) (hik : i ≤ k)
    (hocc : occursAt p s i = true)
    (hmax : ∀ j, i < j → j ≤ k → occursAt p s j = false) :
    rfindFrom p s k = some i := by
  induction k with
  | zero =>
    have : i = 0 := by omega
    subst this
    simp [rfindFrom, hocc]
  | succ k ih =>
    by_cases hk : i = k + 1
    · subst hk
      simp [rfindFrom, hocc]
    · have hkf : occursAt p s (k + 1) = false := hmax (k + 1) (by omega) (by omega)
      simp [rfindFrom, hkf]
      exact ih (by omega) (fun j h1 h2 => hmax j h1 (by omega))

theorem occursAt_drop (p s : List Char) (i j : Nat) :
    occursAt p (s.drop i) j = occursAt p s (i + j) := by
  have hd : (s.drop i).drop j = s.drop (i + j) := by
    rw [List.drop_drop]
  unfold occursAt
  rw [hd]

theorem occursAt_short (p s : List Char) (i : Nat) (hp : p ≠ [])
    (h : s.length < i + p.length) : occursAt p s i = false := by
  by_contra hc
  have h1 : occursAt p s i = true := by
    revert hc
    cases occursAt p s i <;> simp
  unfold occursAt at h1
  have hl := congrArg List.length (eq_of_beq h1)
  simp [List.length_take, List.length_drop] at hl
  have hp' : 0 < p.length := List.length_pos.mpr hp
  omega

theorem rfind_eq_neg_one (b p : List Char)
    (h : ∀ i, i ≤ b.length → occursAt p b i = false) : rfind b p = -1 := by
  unfold rfind
  rw [(rfindFrom_none_iff p b b.length).mpr h]

theorem normIdx_neg_one (n : Nat) : normIdx n (-1) = n - 1 := by
  unfold normIdx
  simp
  omega

theorem normIdx_ofNat (n i : Nat) : normIdx n (i : Int) = min i n := by
  unfold normIdx
  simp

/-- The end index used by the two upper trimming bands never reaches the end
of a nonempty bytecode. -/
theorem trim12_norm_le (b tr : List Char) (htr : tr ≠ []) :
    normIdx b.length (rfind b tr) ≤ b.length - 1 := by
  unfold rfind
  cases h : rfindFrom tr b b.length with
  | none => rw [normIdx_neg_one]
  | some i =>
    obtain ⟨hocc, _, _⟩ := rfindFrom_some_spec tr b b.length i h
    have hle := occursAt_le tr b i htr hocc
    have htr' : 0 < tr.length := List.length_pos.mpr htr
    rw [normIdx_ofNat]
    omega

theorem trim12_slice_len_lt (b tr : List Char) (htr : tr ≠ []) (hb : b ≠ [])
    (i : Int) : (pyslice b i (rfind b tr)).length < b.length := by
  have h1 := trim12_norm_le b tr htr
  have hb' : 0 < b.length := List.length_pos.mpr hb
  unfold pyslice
  have h2 : (b.take (normIdx b.length (rfind b tr))).length ≤ b.length - 1 := by
    simp [List.length_take]
    omega
  calc ((b.take (normIdx b.length (rfind b tr))).drop (normIdx b.length i)).length
      ≤ (b.take (normIdx b.length (rfind b tr))).length := by
        rw [List.length_drop]; omega
    _ ≤ b.length - 1 := h2
    _ < b.length := by omega

theorem trim12_slice_nil (b tr : List Char) (htr : tr ≠ [])
    (habs : ∀ i, i ≤ b.length → occursAt marker6080 b i = false) :
    pyslice b (rfind b marker6080) (rfind b tr) = [] := by
  rw [rfind_eq_neg_one b marker6080 habs]
  have h1 := trim12_norm_le b tr htr
  unfold pyslice
  rw [normIdx_neg_one]
  apply List.drop_eq_nil_of_le
  simp [List.length_take]
  omega

theorem verGe_06_imp_0422 (v : SemVer) (h : verGe v (0, 6, 0) = true) :
    verGe v (0, 4, 22) = true := by
  obtain ⟨a, b, c⟩ := v
  simp [verGe] at h ⊢
  omega

/-- Claim C10: for every compiler version at least 0.4.22 and every bytecode
of length at least 2 not containing the prologue `6080604052`,
`trim_bytecode` returns the empty string; for versions in `[0.4.7, 0.4.22)`
and bytecode not containing `6060604052`, it returns exactly the last
character; in neither case the unmodified input, because the `-1` of the
failed `rfind` is used directly as a slice index. -/
theorem C10_trim_absent_marker :
    (∀ (v : SemVer) (b : List Char), verGe v (0, 4, 22) = true →
      (∀ i, i ≤ b.length → occursAt marker6080 b i = false) → 2 ≤ b.length →
      trim_bytecode b v = [] ∧ trim_bytecode b v ≠ b) ∧
    (∀ (v : SemVer) (b : List Char), verGe v (0, 4, 7) = true →
      verGe v (0, 4, 22) = false →
      (∀ i, i ≤ b.length → occursAt marker6060 b i = false) → 2 ≤ b.length →
      trim_bytecode b v = b.drop (b.length - 1) ∧ trim_bytecode b v ≠ b) := by
  constructor
  · intro v b hv habs hlen
    have hnil : trim_bytecode b v = [] := by
      unfold trim_bytecode
      by_cases h6 : verGe v (0, 6, 0) = true
      · simp [h6]
        exact trim12_slice_nil b trailerNew (by decide) habs
      · simp [h6, hv]
        exact trim12_slice_nil b trailerOld (by decide) habs
    refine ⟨hnil, ?_⟩
    rw [hnil]
    intro hb
    have := congrArg List.length hb
    simp at this
    omega
  · intro v b hv hv' habs hlen
    have h6 : verGe v (0, 6, 0) = false := by
      by_contra hc
      have : verGe v (0, 6, 0) = true := by
        revert hc; cases verGe v (0, 6, 0) <;> simp
      rw [verGe_06_imp_0422 v this] at hv'
      exact absurd hv' (by simp)
    have hval : trim_bytecode b v = b.drop (b.length - 1) := by
      unfold trim_bytecode
      simp [h6, hv', hv]
      rw [rfind_eq_neg_one b marker6060 habs]
      unfold pyslice
      rw [normIdx_neg_one, normIdx_ofNat]
      simp
    refine ⟨hval, ?_⟩
    rw [hval]
    intro hb
    have := congrArg List.length hb
    simp at this
    omega

/-- Witness for C10 at the concrete bytecode `"XY"`. -/
theorem C10_trim_absent_marker_witness :
    trim_bytecode "XY".data (0, 6, 0) = [] ∧
    trim_bytecode "XY".data (0, 4, 7) = "XY".data.drop 1 :=
  ⟨(C10_trim_absent_marker.1 (0, 6, 0) "XY".data (by decide) (by decide) (by decide)).1,
   (C10_trim_absent_marker.2 (0, 4, 7) "XY".data (by decide) (by decide) (by decide) (by decide)).1⟩

/-- In the band `[0.4.7, 0.4.22)` trimming is idempotent. -/
theorem trim34_idem (v : SemVer) (b : List Char) (h47 : verGe v (0, 4, 7) = true)
    (h422 : verGe v (0, 4, 22) = false) :
    trim_bytecode (trim_bytecode b v) v = trim_bytecode b v := by
  have h6 : verGe v (0, 6, 0) = false := by
    by_contra hc
    have h6t : verGe v (0, 6, 0) = true := by
      revert hc; cases verGe v (0, 6, 0) <;> simp
    rw [verGe_06_imp_0422 v h6t] at h422
    exact absurd h422 (by simp)
  have hbr : ∀ x : List Char, trim_bytecode x v = pyslice x (rfind x marker6060) x.length := by
    intro x
    unfold trim_bytecode
    simp [h6, h422, h47]
  rw [hbr b, hbr]
  have hm : marker6060 ≠ [] := by decide
  unfold rfind
  cases h : rfindFrom marker6060 b b.length with
  | some i =>
    obtain ⟨hocc, hile, hmax⟩ := rfindFrom_some_spec marker6060 b b.length i h
    have hlen := occursAt_le marker6060 b i hm hocc
    have hsl : pyslice b (i : Int) (b.length : Int) = b.drop i := by
      unfold pyslice
      rw [normIdx_ofNat, normIdx_ofNat, Nat.min_self, List.take_length,
        Nat.min_eq_left (by omega : i ≤ b.length)]
    rw [hsl]
    have hocc0 : occursAt marker6060 (b.drop i) 0 = true := by
      rw [occursAt_drop]
      simpa using hocc
    have h0 : rfindFrom marker6060 (b.drop i) (b.drop i).length = some 0 := by
      apply rfindFrom_eq_some_of _ _ _ 0 (by omega) hocc0
      intro j hj1 hj2
      rw [occursAt_drop]
      apply hmax
      · omega
      · simp [List.length_drop] at hj2
        omega
    rw [h0]
    unfold pyslice
    rw [normIdx_ofNat, normIdx_ofNat]
    simp
  | none =>
    have hsl : pyslice b (-1) (b.length : Int) = b.drop (b.length - 1) := by
      unfold pyslice
      rw [normIdx_neg_one, normIdx_ofNat]
      simp
    rw [hsl]
    have hlen1 : (b.drop (b.length - 1)).length ≤ 1 := by
      rw [List.length_drop]
      omega
    have hnone : rfindFrom marker6060 (b.drop (b.length - 1)) (b.drop (b.length - 1)).length = none := by
      apply (rfindFrom_none_iff _ _ _).mpr
      intro i hi
      apply occursAt_short _ _ _ hm
      have : marker6060.length = 10 := by decide
      omega
    rw [hnone]
    unfold pyslice
    rw [normIdx_neg_one, normIdx_ofNat, Nat.min_self, List.take_length]
    have h10 : (b.drop (b.length - 1)).length - 1 = 0 := by omega
    rw [h10, List.drop_zero]

/-- Counterexample to claim C6 as stated: for version 0.6.0 and the bytecode
`"6080604052XY"` (prologue present, trailer absent), one trim drops only the
final character, and a second trim drops another one. -/
theorem C6_counterexample :
    trim_bytecode "6080604052XY".data (0, 6, 0) = "6080604052X".data ∧
    trim_bytecode (trim_bytecode "6080604052XY".data (0, 6, 0)) (0, 6, 0) = "6080604052".data ∧
    trim_bytecode (trim_bytecode "6080604052XY".data (0, 6, 0)) (0, 6, 0) ≠
      trim_bytecode "6080604052XY".data (0, 6, 0) := by
  refine ⟨by decide, by decide, by decide⟩

/-- Amended claim C6: trimming is idempotent in the `[0.4.7, 0.4.22)` band
unconditionally; in the two bands at or above 0.4.22 a second trim is a no-op
exactly when the first trim produced the empty string (a nonempty trimmed
bytecode always loses at least one further character). -/
theorem C6_trim_idempotence_amended (v : SemVer) (b : List Char) :
    (verGe v (0, 4, 7) = true → verGe v (0, 4, 22) = false →
      trim_bytecode (trim_bytecode b v) v = trim_bytecode b v) ∧
    (verGe v (0, 4, 22) = true →
      (trim_bytecode (trim_bytecode b v) v = trim_bytecode b v ↔
        trim_bytecode b v = [])) := by
  constructor
  · exact fun h47 h422 => trim34_idem v b h47 h422
  · intro h422
    constructor
    · intro heq
      by_contra hne
      have hlt : (trim_bytecode (trim_bytecode b v) v).length < (trim_bytecode b v).length := by
        by_cases h6 : verGe v (0, 6, 0) = true
        · have hbr : trim_bytecode (trim_bytecode b v) v =
              pyslice (trim_bytecode b v) (rfind (trim_bytecode b v) marker6080)
                (rfind (trim_bytecode b v) trailerNew) := by
            unfold trim_bytecode
            simp [h6]
          rw [hbr]
          exact trim12_slice_len_lt _ trailerNew (by decide) hne _
        · have hbr : trim_bytecode (trim_bytecode b v) v =
              pyslice (trim_bytecode b v) (rfind (trim_bytecode b v) marker6080)
                (rfind (trim_bytecode b v) trailerOld) := by
            unfold trim_bytecode
            simp [h6, h422]
          rw [hbr]
          exact trim12_slice_len_lt _ trailerOld (by decide) hne _
      rw [heq] at hlt
      omega
    · intro hnil
      rw [hnil]
      by_cases h6 : verGe v (0, 6, 0) = true
      · unfold trim_bytecode
        simp [h6]
        decide
      · unfold trim_bytecode
        simp [h6, h422]
        decide

/-- Witness for the amended C6 at concrete inputs in each band. -/
theorem C6_trim_idempotence_amended_witness :
    trim_bytecode (trim_bytecode "6060604052AB".data (0, 4, 19)) (0, 4, 19) =
      trim_bytecode "6060604052AB".data (0, 4, 19) ∧
    (trim_bytecode (trim_bytecode "XY6080604052".data (0, 6, 0)) (0, 6, 0) =
      trim_bytecode "XY6080604052".data (0, 6, 0) ↔
      trim_bytecode "XY6080604052".data (0, 6, 0) = []) :=
  ⟨(C6_trim_idempotence_amended (0, 4, 19) "6060604052AB".data).1 (by decide) (by decide),
   (C6_trim_idempotence_amended (0, 6, 0) "XY6080604052".data).2 (by decide)⟩

theorem verifyGo_all_fail (db : String → AddrRecord) (rc : String → Option (List Char)) :
    ∀ (cands : List String) (n : Nat),
      (∀ b ∈ cands, candMatches db rc b = false) →
      verifyGo db rc cands n = ((none, none), n + cands.length) := by
  intro cands
  induction cands with
  | nil => intro n _; simp [verifyGo]
  | cons a rest ih =>
    intro n h
    have ha : candMatches db rc a = false := h a (by simp)
    simp [verifyGo, ha]
    rw [ih (n + 1) (fun b hb => h b (by simp [hb]))]
    have harith : n + 1 + rest.length = n + (rest.length + 1) := by omega
    rw [harith]

theorem verifyGo_first_match (db : String → AddrRecord) (rc : String → Option (List Char))
    (a : String) (post : List String) (hm : candMatches db rc a = true) :
    ∀ (pre : List String) (n : Nat),
      (∀ b ∈ pre, candMatches db rc b = false) →
      verifyGo db rc (pre ++ a :: post) n =
        ((some a, some (db a).compiler_version), n + pre.length + 1) := by
  intro pre
  induction pre with
  | nil => intro n _; simp [verifyGo, hm]
  | cons c rest ih =>
    intro n h
    have hc : candMatches db rc c = false := h c (by simp)
    simp only [List.cons_append, verifyGo, hc, Bool.false_eq_true, if_false, List.append_eq]
    rw [ih (n + 1) (fun b hb => h b (by simp [hb]))]
    have harith : n + 1 + rest.length + 1 = n + (c :: rest).length + 1 := by simp; omega
    rw [harith]

/-- Claim C7: the deployment matcher returns the first candidate address (in
list order) whose compiled-and-trimmed bytecode equals its record's cached
on-chain bytecode, with that record's compiler version, after exactly one
compiler invocation per candidate up to and including the match; with no
matching candidate (failed compilations count as non-matches) it returns
`(None, None)` after compiling every candidate. -/
theorem C7_deployment_matcher (db : String → AddrRecord) (rc : String → Option (List Char)) :
    (∀ (pre : List String) (a : String) (post : List String),
      (∀ b ∈ pre, candMatches db rc b = false) →
      candMatches db rc a = true →
      verify_contract_deployment_address db rc (pre ++ a :: post) =
        ((some a, some (db a).compiler_version), pre.length + 1)) ∧
    (∀ cands : List String,
      (∀ b ∈ cands, candMatches db rc b = false) →
      verify_contract_deployment_address db rc cands = ((none, none), cands.length)) := by
  constructor
  · intro pre a post hpre hm
    unfold verify_contract_deployment_address
    rw [verifyGo_first_match db rc a post hm pre 0 hpre]
    simp
  · intro cands h
    unfold verify_contract_deployment_address
    rw [verifyGo_all_fail db rc cands 0 h]
    simp

/-- Witness for C7: the spec's `"Token"` scenario — candidate 1 mismatches,
candidate 2 matches; the matcher returns address 2 with its version after
two compiler invocations. -/
theorem C7_deployment_matcher_witness :
    verify_contract_deployment_address
      (fun a => if a = "addr2" then ⟨"Token", (0, 6, 0), false, 0, "6080604052AB".data⟩
                else ⟨"Token", (0, 6, 0), false, 0, "FF".data⟩)
      (fun _ => some "6080604052ABa264697066735822XX".data)
      ["addr1", "addr2"] = ((some "addr2", some (0, 6, 0)), 2) := by
  have h := (C7_deployment_matcher
      (fun a => if a = "addr2" then ⟨"Token", (0, 6, 0), false, 0, "6080604052AB".data⟩
                else ⟨"Token", (0, 6, 0), false, 0, "FF".data⟩)
      (fun _ => some "6080604052ABa264697066735822XX".data)).1
      ["addr1"] "addr2" []
      (by intro b hb; simp at hb; subst hb; decide) (by decide)
  simpa using h

theorem procVuln_total_append (d : Bool) (st : CommitState) (ov : Option Vulnerability) :
    ∃ δ, (procVuln d st ov).total = st.total ++ δ := by
  cases ov with
  | none => exact ⟨[], by simp [procVuln]⟩
  | some v =>
    by_cases hm : pySetMem v st.total = true
    · exact ⟨[], by simp [procVuln, hm]⟩
    · refine ⟨[v], ?_⟩
      have hm' : pySetMem v st.total = false := by
        revert hm; cases pySetMem v st.total <;> simp
      simp [procVuln, hm', pySetAdd]

theorem foldl_procVuln_append (d : Bool) :
    ∀ (l : List (Option Vulnerability)) (st : CommitState),
      ∃ δ, (l.foldl (procVuln d) st).total = st.total ++ δ := by
  intro l
  induction l with
  | nil => exact fun st => ⟨[], by simp⟩
  | cons ov rest ih =>
    intro st
    obtain ⟨δ1, h1⟩ := procVuln_total_append d st ov
    obtain ⟨δ2, h2⟩ := ih (procVuln d st ov)
    exact ⟨δ1 ++ δ2, by simp [h2, h1]⟩

theorem walkStep_append (total : List Vulnerability)
    (c : List (Option Vulnerability) × List (Option Vulnerability)) :
    ∃ δ, walkStep total c = total ++ δ := by
  unfold walkStep processCommitVulns
  obtain ⟨δ1, h1⟩ := foldl_procVuln_append true c.1 ⟨total, [], [], []⟩
  obtain ⟨δ2, h2⟩ := foldl_procVuln_append false c.2 (c.1.foldl (procVuln true) ⟨total, [], [], []⟩)
  exact ⟨δ1 ++ δ2, by simp [h2, h1]⟩

theorem walkTotals_append :
    ∀ (cs : List (List (Option Vulnerability) × List (Option Vulnerability)))
      (seed : List Vulnerability), ∃ δ, walkTotals cs seed = seed ++ δ := by
  intro cs
  induction cs with
  | nil => exact fun seed => ⟨[], by simp [walkTotals]⟩
  | cons c rest ih =>
    intro seed
    obtain ⟨δ1, h1⟩ := walkStep_append seed c
    obtain ⟨δ2, h2⟩ := ih (walkStep seed c)
    refine ⟨δ1 ++ δ2, ?_⟩
    simp only [walkTotals, List.foldl_cons] at h2 ⊢
    rw [h2, h1, List.append_assoc]

theorem walkTotals_take_mono (commits : List (List (Option Vulnerability) × List (Option Vulnerability)))
    (seed : List Vulnerability) (i j : Nat) (hij : i ≤ j) :
    ∃ δ, walkTotals (commits.take j) seed = walkTotals (commits.take i) seed ++ δ := by
  have hsplit : commits.take j = commits.take i ++ (commits.drop i).take (j - i) := by
    have : j = i + (j - i) := by omega
    rw [this, List.take_add]
    simp [Nat.add_sub_cancel_left]
  rw [hsplit]
  unfold walkTotals
  rw [List.foldl_append]
  exact walkTotals_append _ _

/-- Claim C8: during one repository's backward walk the cumulative seen set
`total_vuln` only grows — every finding present after an earlier-processed
commit is still present after any later-processed commit, and the size after
commit `i` is the HEAD-seeded size plus the number of distinct new findings
introduced by commits `1..i`. -/
theorem C8_monotonic_accumulation
    (commits : List (List (Option Vulnerability) × List (Option Vulnerability)))
    (seed : List Vulnerability) :
    (∀ i j, i ≤ j → ∀ v, v ∈ walkTotals (commits.take i) seed →
      v ∈ walkTotals (commits.take j) seed) ∧
    (∀ i, (walkTotals (commits.take i) seed).length =
      seed.length + ((List.range i).map (newCount commits seed)).sum) := by
  constructor
  · intro i j hij v hv
    obtain ⟨δ, hδ⟩ := walkTotals_take_mono commits seed i j hij
    rw [hδ]
    exact List.mem_append_left δ hv
  · intro i
    induction i with
    | zero => simp [walkTotals]
    | succ i ih =>
      obtain ⟨δ, hδ⟩ := walkTotals_take_mono commits seed i (i + 1) (by omega)
      have hlen : (walkTotals (commits.take (i + 1)) seed).length =
          (walkTotals (commits.take i) seed).length + δ.length := by
        rw [hδ]; simp
      have hnc : newCount commits seed i = δ.length := by
        unfold newCount
        omega
      rw [List.range_succ, List.map_append, List.sum_append]
      simp [hnc, ih]
      omega

/-- Witness for C8 at a concrete one-commit walk. -/
theorem C8_monotonic_accumulation_witness :
    (⟨some (.str "reentrancy-eth"), "a.sol", some (.str "C"), some (.str "f"),
       [3], "children.[*]", .obj []⟩ : Vulnerability) ∈
      walkTotals ([([], [])].take 1)
        [⟨some (.str "reentrancy-eth"), "a.sol", some (.str "C"), some (.str "f"),
          [3], "children.[*]", .obj []⟩] :=
  (C8_monotonic_accumulation [([], [])]
    [⟨some (.str "reentrancy-eth"), "a.sol", some (.str "C"), some (.str "f"),
      [3], "children.[*]", .obj []⟩]).1 0 1 (by omega) _ (by simp [walkTotals])

theorem jwfList_mem {l : List Json} (h : jwfList l = true) {x : Json} (hx : x ∈ l) :
    jwf x = true := by
  induction l with
  | nil => cases hx
  | cons a rest ih =>
    simp [jwfList, Bool.and_eq_true] at h
    rcases List.mem_cons.mp hx with hh | ht
    · rw [hh]; exact h.1
    · exact ih h.2 ht

theorem jwfObj_mem {l : List (String × Json)} (h : jwfObj l = true)
    {kv : String × Json} (hkv : kv ∈ l) : jwf kv.2 = true := by
  induction l with
  | nil => cases hkv
  | cons a rest ih =>
    obtain ⟨k', v'⟩ := a
    simp [jwfObj, Bool.and_eq_true] at h
    rcases List.mem_cons.mp hkv with hh | ht
    · rw [hh]; exact h.1
    · exact ih h.2 ht

theorem keysNodup_tail {a : String × Json} {l : List (String × Json)}
    (h : keysNodup (a :: l) = true) : keysNodup l = true := by
  obtain ⟨k, v⟩ := a
  simp [keysNodup, Bool.and_eq_true] at h
  exact h.2

theorem find?_key_self (l : List (String × Json)) (k : String) (v : Json)
    (hnd : keysNodup l = true) (hmem : (k, v) ∈ l) :
    l.find? (fun e => e.1 == k) = some (k, v) := by
  induction l with
  | nil => cases hmem
  | cons a rest ih =>
    obtain ⟨k', v'⟩ := a
    rcases List.mem_cons.mp hmem with hh | ht
    · obtain ⟨h1, h2⟩ : k = k' ∧ v = v' := by simpa using hh
      subst h1; subst h2
      simp [List.find?]
    · have hk : (k' == k) = false := by
        simp [keysNodup, Bool.and_eq_true] at hnd
        have := hnd.1 k v ht
        simp
        intro he
        exact this he.symm
      simp [List.find?, hk]
      exact ih (keysNodup_tail hnd) ht

theorem lookupSized_self (l : List (String × Json)) (k : String) (v : Json)
    (hnd : keysNodup l = true) (hmem : (k, v) ∈ l) :
    (lookupSized k l).map Subtype.val = some v := by
  induction l with
  | nil => cases hmem
  | cons a rest ih =>
    obtain ⟨k', v'⟩ := a
    rcases List.mem_cons.mp hmem with hh | ht
    · obtain ⟨h1, h2⟩ : k = k' ∧ v = v' := by simpa using hh
      subst h1; subst h2
      simp [lookupSized]
    · have hk : (k' == k) = false := by
        simp [keysNodup, Bool.and_eq_true] at hnd
        have := hnd.1 k v ht
        simp
        intro he
        exact this he.symm
      have hrec := ih (keysNodup_tail hnd) ht
      simp [lookupSized, hk]
      cases hls : lookupSized k rest with
      | none => rw [hls] at hrec; simp at hrec
      | some w =>
        rw [hls] at hrec
        simp at hrec
        simp [hrec]

theorem pyKeysSub_refl (l : List (String × Json)) : pyKeysSub l l = true := by
  apply List.all_eq_true.mpr
  intro kv hkv
  apply List.any_eq_true.mpr
  exact ⟨kv, hkv, by simp⟩

theorem json_refl_aux :
    ∀ (n : Nat) (j : Json), sizeOf j ≤ n → jwf j = true →
      pyEqJson j j = true ∧ jsonEquiv j j = true := by
  intro n
  induction n with
  | zero =>
    intro j hsz
    exfalso
    cases j <;> simp at hsz
  | succ n ih =>
    intro j hsz hwfj
    cases j with
    | null => simp [pyEqJson, jsonEquiv]
    | bool b => simp [pyEqJson, jsonEquiv]
    | num m => simp [pyEqJson, jsonEquiv]
    | str s => simp [pyEqJson, jsonEquiv]
    | arr l =>
      have hwl : jwfList l = true := by simpa [jwf] using hwfj
      have hsl : sizeOf l ≤ n := by simp at hsz; omega
      have helem : ∀ x ∈ l, pyEqJson x x = true ∧ jsonEquiv x x = true := by
        intro x hx
        have h1 : sizeOf x < sizeOf l := List.sizeOf_lt_of_mem hx
        exact ih x (by omega) (jwfList_mem hwl hx)
      constructor
      · have : ∀ (m : List Json), (∀ x ∈ m, pyEqJson x x = true) → pyEqList m m = true := by
          intro m hm
          induction m with
          | nil => simp [pyEqList]
          | cons x xs ihm =>
            simp [pyEqList, hm x (by simp)]
            exact ihm (fun y hy => hm y (by simp [hy]))
        simpa [pyEqJson] using this l (fun x hx => (helem x hx).1)
      · have : ∀ (m : List Json), (∀ x ∈ m, jsonEquiv x x = true) → arrEquiv m m = true := by
          intro m hm
          induction m with
          | nil => simp [arrEquiv]
          | cons x xs ihm =>
            have hx := hm x (by simp)
            simp [arrEquiv, pickMatch, hx]
            exact ihm (fun y hy => hm y (by simp [hy]))
        simpa [jsonEquiv] using this l (fun x hx => (helem x hx).2)
    | obj l =>
      have hnd : keysNodup l = true := by
        simp [jwf, Bool.and_eq_true] at hwfj
        exact hwfj.1
      have hwo : jwfObj l = true := by
        simp [jwf, Bool.and_eq_true] at hwfj
        exact hwfj.2
      have hsl : sizeOf l ≤ n := by simp at hsz; omega
      have helem : ∀ kv ∈ l, pyEqJson kv.2 kv.2 = true ∧ jsonEquiv kv.2 kv.2 = true := by
        intro kv hkv
        have h1 : sizeOf kv < sizeOf l := List.sizeOf_lt_of_mem hkv
        have h2 : sizeOf kv.2 < sizeOf kv := by
          obtain ⟨a, b⟩ := kv
          simp
          try omega
        exact ih kv.2 (by omega) (jwfObj_mem hwo hkv)
      have hfwd : ∀ (c : List (String × Json)), (∀ kv ∈ c, kv ∈ l) → pyEqObjFwd c l = true := by
        intro c hc
        induction c with
        | nil => simp [pyEqObjFwd]
        | cons kv rest ihc =>
          obtain ⟨k, v⟩ := kv
          have hmem : (k, v) ∈ l := hc (k, v) (by simp)
          have hfind := find?_key_self l k v hnd hmem
          simp [pyEqObjFwd, hfind]
          constructor
          · exact (helem (k, v) hmem).1
          · exact ihc (fun kv2 hkv2 => hc kv2 (by simp [hkv2]))
      have hfwd2 : ∀ (c : List (String × Json)), (∀ kv ∈ c, kv ∈ l) → objEquivFwd c l = true := by
        intro c hc
        induction c with
        | nil => simp [objEquivFwd]
        | cons kv rest ihc =>
          obtain ⟨k, v⟩ := kv
          have hmem : (k, v) ∈ l := hc (k, v) (by simp)
          have hlk := lookupSized_self l k v hnd hmem
          have : ∃ w, lookupSized k l = some w ∧ w.val = v := by
            cases hls : lookupSized k l with
            | none => rw [hls] at hlk; simp at hlk
            | some w => rw [hls] at hlk; simp at hlk; exact ⟨w, rfl, hlk⟩
          obtain ⟨w, hw1, hw2⟩ := this
          simp [objEquivFwd, hw1, hw2]
          constructor
          · exact (helem (k, v) hmem).2
          · exact ihc (fun kv2 hkv2 => hc kv2 (by simp [hkv2]))
      constructor
      · simp [pyEqJson, pyKeysSub_refl]
        exact hfwd l (fun kv hkv => hkv)
      · simp [jsonEquiv, pyKeysSub_refl]
        exact hfwd2 l (fun kv hkv => hkv)

theorem pyEqJson_refl (j : Json) (h : jwf j = true) : pyEqJson j j = true :=
  (json_refl_aux (sizeOf j) j le_rfl h).1

theorem jsonEquiv_refl (j : Json) (h : jwf j = true) : jsonEquiv j j = true :=
  (json_refl_aux (sizeOf j) j le_rfl h).2

theorem pyEqObj_refl (x : Option Json) (h : pyWf x = true) : pyEqObj x x = true := by
  cases x with
  | none => simp [pyEqObj]
  | some j => exact pyEqJson_refl j (by simpa [pyWf] using h)

/-- Claim C2 (code bug in `Vulnerability.__hash__`): two findings that are
equal under `__eq__` (whose `DeepDiff` comparison ignores list order) can
serialize to different `json.dumps` strings, so their hashes — which XOR the
hash of the order-sensitive serialization — differ for a generic string
hash. Equality does not imply equal hashes. -/
theorem C2_hash_inconsistent_with_eq :
    vulnEq (exVuln "a.sol" nodeA [3]) (exVuln "a.sol" nodeB [3]) = true ∧
    dumps nodeA ≠ dumps nodeB ∧
    ∃ h : Option Json → Nat,
      vulnHashWith h (exVuln "a.sol" nodeA [3]) ≠
        vulnHashWith h (exVuln "a.sol" nodeB [3]) := by
  refine ⟨?_, by decide, ?_⟩
  · simp [vulnEq, exVuln, nodeA, nodeB, jsonEquiv, arrEquiv, pickMatch,
      objEquivFwd, lookupSized, pyKeysSub, pyEqObj, pyEqJson]
  · refine ⟨fun o => match o with
      | some (.str s) => if s = dumps nodeA then 1 else 0
      | _ => 0, ?_⟩
    decide

/-- Counterexample to claim C3 as stated: two findings identical except for
their `contract_file_path` are equal under `Vulnerability.__eq__` (which
never compares the file path), and the second is merged away when added to a
set containing the first. -/
theorem C3_counterexample :
    vulnEq (exVuln "contracts/A.sol" nodeS [3]) (exVuln "contracts/B.sol" nodeS [3]) = true ∧
    (exVuln "contracts/A.sol" nodeS [3]).contract_file_path ≠
      (exVuln "contracts/B.sol" nodeS [3]).contract_file_path ∧
    pySetAdd [exVuln "contracts/A.sol" nodeS [3]] (exVuln "contracts/B.sol" nodeS [3]) =
      [exVuln "contracts/A.sol" nodeS [3]] := by
  have heq : vulnEq (exVuln "contracts/A.sol" nodeS [3]) (exVuln "contracts/B.sol" nodeS [3]) = true := by
    simp [vulnEq, exVuln, nodeS, jsonEquiv, objEquivFwd, lookupSized, pyKeysSub,
      pyEqObj, pyEqJson]
  refine ⟨heq, by decide, ?_⟩
  have hkey : vulnKeyEq (exVuln "contracts/A.sol" nodeS [3]) (exVuln "contracts/B.sol" nodeS [3]) = true := by
    decide
  simp [pySetAdd, pySetMem, hkey, heq]

/-- Amended claim C3: `Vulnerability.__eq__` is entirely insensitive to
`contract_file_path` — two otherwise-identical findings reported against
different files compare equal, and changing either file path never changes
the result of the comparison. -/
theorem C3_amended_path_ignored (v1 v2 : Vulnerability) (p q : String) :
    vulnEq { v1 with contract_file_path := p } { v2 with contract_file_path := q } =
      vulnEq v1 v2 := rfl

/-- Counterexample to claim C4 as stated: within one commit, slither and
oyente each report a new finding and the two are equal under finding
identity (they differ only in line numbers); the merge logic classifies the
finding under the slither-only group — the `Slither|Oyente` common group
stays empty, because the oyente copy is dropped by the `total_vuln`
membership test before the grouping dicts are compared. -/
theorem C4_counterexample :
    vulnEq (exVuln "a.sol" nodeS [7]) (exVuln "a.sol" nodeS [8]) = true ∧
    classify (processCommitVulns [some (exVuln "a.sol" nodeS [7])]
        [some (exVuln "a.sol" nodeS [8])] []).slMap
      (processCommitVulns [some (exVuln "a.sol" nodeS [7])]
        [some (exVuln "a.sol" nodeS [8])] []).oyMap
      ((exVuln "a.sol" nodeS [7]).function_name, (exVuln "a.sol" nodeS [7]).contract_name) =
      ([], [exVuln "a.sol" nodeS [7]], []) := by
  have heq : vulnEq (exVuln "a.sol" nodeS [7]) (exVuln "a.sol" nodeS [8]) = true := by
    simp [vulnEq, exVuln, nodeS, jsonEquiv, objEquivFwd, lookupSized, pyKeysSub,
      pyEqObj, pyEqJson]
  have hkey : vulnKeyEq (exVuln "a.sol" nodeS [7]) (exVuln "a.sol" nodeS [8]) = true := by
    decide
  refine ⟨heq, ?_⟩
  have hstep : processCommitVulns [some (exVuln "a.sol" nodeS [7])]
      [some (exVuln "a.sol" nodeS [8])] [] =
      ⟨[exVuln "a.sol" nodeS [7]],
       [(((exVuln "a.sol" nodeS [7]).function_name, (exVuln "a.sol" nodeS [7]).contract_name),
         [exVuln "a.sol" nodeS [7]])], [],
       [((exVuln "a.sol" nodeS [7]).function_name, (exVuln "a.sol" nodeS [7]).contract_name,
         (exVuln "a.sol" nodeS [7]).contract_file_path)]⟩ := by
    simp [processCommitVulns, procVuln, pySetMem, pySetAdd, mapAddVuln, metaAdd,
      hkey, heq]
  rw [hstep]
  simp [classify, mapGet, keyEqFC, exVuln, pyEqObj, pyEqJson, pySetUnion]

/-- Amended claim C4: when the two adapters report equal new findings in one
commit, the finding is recorded once under the slither-only group (the first
detector processed); the common `Slither|Oyente` group is left empty because
the oyente duplicate is already a member of the seen set when it is
examined. -/
theorem C4_cross_detector_amended (v v' : Vulnerability) (total : List Vulnerability)
    (hnew : pySetMem v total = false)
    (heq : vulnEq v v' = true) (hkey : vulnKeyEq v v' = true)
    (hfn : pyWf v.function_name = true) (hcn : pyWf v.contract_name = true) :
    classify (processCommitVulns [some v] [some v'] total).slMap
      (processCommitVulns [some v] [some v'] total).oyMap
      (v.function_name, v.contract_name) = ([], [v], []) ∧
    (processCommitVulns [some v] [some v'] total).total = total ++ [v] := by
  have hmem2 : pySetMem v' (total ++ [v]) = true := by
    apply List.any_eq_true.mpr
    exact ⟨v, by simp, by simp [hkey, heq]⟩
  have hstep : processCommitVulns [some v] [some v'] total =
      ⟨total ++ [v], [((v.function_name, v.contract_name), [v])], [],
       [(v.function_name, v.contract_name, v.contract_file_path)]⟩ := by
    simp [processCommitVulns, procVuln, hnew, pySetAdd, mapAddVuln, metaAdd, hmem2]
  rw [hstep]
  have hrefl : keyEqFC (v.function_name, v.contract_name) (v.function_name, v.contract_name) = true := by
    simp [keyEqFC, pyEqObj_refl _ hfn, pyEqObj_refl _ hcn]
  simp [classify, mapGet, hrefl, pySetUnion]

/-- Witness for the amended C4 at concrete findings differing only in line
numbers. -/
theorem C4_cross_detector_amended_witness :
    classify (processCommitVulns [some (exVuln "w.sol" nodeS [7])]
        [some (exVuln "w.sol" nodeS [8])] []).slMap
      (processCommitVulns [some (exVuln "w.sol" nodeS [7])]
        [some (exVuln "w.sol" nodeS [8])] []).oyMap
      ((exVuln "w.sol" nodeS [7]).function_name, (exVuln "w.sol" nodeS [7]).contract_name) =
      ([], [exVuln "w.sol" nodeS [7]], []) :=
  (C4_cross_detector_amended (exVuln "w.sol" nodeS [7]) (exVuln "w.sol" nodeS [8]) []
    (by simp [pySetMem])
    (by simp [vulnEq, exVuln, nodeS, jsonEquiv, objEquivFwd, lookupSized, pyKeysSub,
      pyEqObj, pyEqJson])
    (by decide) (by decide) (by decide)).1

/-! ## Soundness of the AST locator -/

theorem mem_foldr_append {α β : Type} (f : α → List β) (l : List α) (x : β) :
    x ∈ l.foldr (fun a acc => f a ++ acc) [] ↔ ∃ a ∈ l, x ∈ f a := by
  induction l with
  | nil => simp
  | cons a rest ih => simp [List.mem_append, ih]

theorem goStatements_found (sts : List Json) :
    ∀ (line : Json) (path : List String) (n : Json) (p : List String),
      goStatements sts line path = .found n p →
      ∃ raw ∈ sts, (∃ v, getLocStartLine raw = some v ∧ pyEqJson v line = true) ∧
        n = remove_loc_info raw := by
  induction sts with
  | nil => intro line path n p h; simp [goStatements] at h
  | cons st rest ih =>
    intro line path n p h
    unfold goStatements at h
    cases hg : getLocStartLine st with
    | none => rw [hg] at h; simp at h
    | some v =>
      rw [hg] at h
      by_cases hv : pyEqJson v line = true
      · simp [hv] at h
        exact ⟨st, by simp, ⟨v, hg, hv⟩, h.1.symm⟩
      · simp [hv] at h
        obtain ⟨raw, hmem, hrest⟩ := ih line path n p h
        exact ⟨raw, by simp [hmem], hrest⟩

theorem goMembers_found (mems : List Json) :
    ∀ (line : Json) (path : List String) (n : Json) (p : List String),
      goMembers mems line path = .found n p →
      ∃ raw ∈ mems, (∃ v, getLocStartLine raw = some v ∧ pyEqJson v line = true) ∧
        n = remove_loc_info raw := by
  induction mems with
  | nil => intro line path n p h; simp [goMembers] at h
  | cons m rest ih =>
    intro line path n p h
    unfold goMembers at h
    cases hg : getLocStartLine m with
    | none => rw [hg] at h; simp at h
    | some v =>
      rw [hg] at h
      by_cases hv : pyEqJson v line = true
      · simp [hv] at h
        exact ⟨m, by simp, ⟨v, hg, hv⟩, h.1.symm⟩
      · simp [hv] at h
        obtain ⟨raw, hmem, hrest⟩ := ih line path n p h
        exact ⟨raw, by simp [hmem], hrest⟩


theorem goSubNodes_found (subs : List Json) :
    ∀ (line : Json) (path : List String) (n : Json) (p : List String),
      goSubNodes subs line path = .found n p →
      ∃ s ∈ subs, ∃ raw ∈ candOfSub s,
        (∃ v, getLocStartLine raw = some v ∧ pyEqJson v line = true) ∧
        n = remove_loc_info raw := by
  induction subs with
  | nil => intro line path n p h; simp [goSubNodes] at h
  | cons sub rest ih =>
    intro line path n p h
    have cont : goSubNodes rest line path = .found n p →
        ∃ s ∈ sub :: rest, ∃ raw ∈ candOfSub s,
          (∃ v, getLocStartLine raw = some v ∧ pyEqJson v line = true) ∧
          n = remove_loc_info raw := by
      intro hr
      obtain ⟨s, hs, hrest⟩ := ih line path n p hr
      exact ⟨s, by simp [hs], hrest⟩
    unfold goSubNodes at h
    split at h
    · simp at h
    · rename_i t hty
      split at h
      · rename_i h1
        split at h
        · simp at h
        · rename_i v hg
          split at h
          · rename_i hv
            simp at h
            refine ⟨sub, by simp, sub, ?_, ⟨v, hg, hv⟩, h.1.symm⟩
            simp [candOfSub, hty, h1]
          · exact cont h
      · rename_i h1
        split at h
        · rename_i h2
          split at h
          · rename_i mems hm
            split at h
            · rename_i nn pp hgm
              simp at h
              obtain ⟨raw, hraw, hprops, hn⟩ := goMembers_found mems line path nn pp hgm
              refine ⟨sub, by simp, raw, ?_, hprops, h.1 ▸ hn⟩
              simpa [candOfSub, hty, h1, h2, hm] using hraw
            · exact cont h
            · simp at h
          · exact cont h
          · split at h
            · exact cont h
            · simp at h
          · simp at h
        · rename_i h2
          split at h
          · rename_i h3
            split at h
            · rename_i s0 ss hb
              split at h
              · rename_i nn pp hgs
                simp at h
                obtain ⟨raw, hraw, hprops, hn⟩ :=
                  goStatements_found (s0 :: ss) line path nn pp hgs
                refine ⟨sub, by simp, raw, ?_, hprops, h.1 ▸ hn⟩
                simpa [candOfSub, hty, h1, h2, h3, hb] using hraw
              · exact cont h
              · simp at h
            · exact cont h
            · exact cont h
            · simp at h
            · split at h
              · exact cont h
              · simp at h
            · split at h
              · exact cont h
              · simp at h
            · split at h
              · simp at h
              · exact cont h
            · exact cont h
            · exact cont h
          · exact cont h

theorem goChildren_found (children : List Json) :
    ∀ (line : Json) (path : List String) (n : Json) (p : List String),
      goChildren children line path = .found n p →
      ∃ c ∈ children, ∃ raw ∈ candOfChild c,
        (∃ v, getLocStartLine raw = some v ∧ pyEqJson v line = true) ∧
        n = remove_loc_info raw := by
  induction children with
  | nil => intro line path n p h; simp [goChildren] at h
  | cons child rest ih =>
    intro line path n p h
    have cont : ∀ path2, goChildren rest line path2 = .found n p →
        ∃ c ∈ child :: rest, ∃ raw ∈ candOfChild c,
          (∃ v, getLocStartLine raw = some v ∧ pyEqJson v line = true) ∧
          n = remove_loc_info raw := by
      intro path2 hr
      obtain ⟨c, hc, hrest⟩ := ih line path2 n p hr
      exact ⟨c, by simp [hc], hrest⟩
    unfold goChildren at h
    split at h
    · simp at h
    · rename_i t hty
      split at h
      · rename_i h1
        split at h
        · rename_i subs hsub
          split at h
          · rename_i nn pp hgs
            simp at h
            obtain ⟨s, hsmem, raw, hraw, hprops, hn⟩ := goSubNodes_found subs line _ nn pp hgs
            refine ⟨child, by simp, raw, ?_, hprops, h.1 ▸ hn⟩
            have hmem : raw ∈ subs.foldr (fun s acc => candOfSub s ++ acc) [] :=
              (mem_foldr_append _ _ _).mpr ⟨s, hsmem, hraw⟩
            simpa [candOfChild, hty, h1, hsub] using hmem
          · exact cont _ h
          · simp at h
        · exact cont _ h
        · split at h
          · exact cont _ h
          · simp at h
        · simp at h
      · exact cont _ h

theorem locateR_found_sound (t : Json) (line : Json) (n : Json) (p : List String)
    (h : locateR t line = .found n p) :
    ∃ raw ∈ candNodes t,
      (∃ v, getLocStartLine raw = some v ∧ pyEqJson v line = true) ∧
      n = remove_loc_info raw := by
  unfold locateR at h
  split at h
  · rename_i children hch
    obtain ⟨c, hc, raw, hraw, hprops, hn⟩ := goChildren_found children line _ n p h
    refine ⟨raw, ?_, hprops, hn⟩
    have hmem : raw ∈ children.foldr (fun c acc => candOfChild c ++ acc) [] :=
      (mem_foldr_append _ _ _).mpr ⟨c, hc, hraw⟩
    simpa [candNodes, hch] using hmem
  · simp at h
  · split at h
    · simp at h
    · simp at h
  · simp at h

/-- Counterexample to claim C5 as stated: line 6 lies strictly inside the
source range (lines 5–7) of the single statement of `stmtTree`, yet the
locator raises the node-not-found error; only the exact start line 5 is
found. -/
theorem C5_counterexample :
    locateR stmtTree (.num 6) = .notfound ∧
    locateR stmtTree (.num 5) =
      .found (.obj [("type", .str "ExpressionStatement")])
        ["children", "[*]", "subNodes", "[*]", "body", "statements", "[*]"] :=
  ⟨rfl, rfl⟩

/-- Amended claim C5: whenever `get_node_and_node_path` returns a node, that
node is the loc-stripped copy of a declared member or statement whose
recorded start line compares equal to the queried line; a line that is
merely contained in a node's line range (but is not its start line) is never
the basis of a result, as the counterexample shows. -/
theorem C5_locator_start_line (t : Json) (line : Json) (n : Json) (p : List String)
    (h : locateR t line = .found n p) :
    ∃ raw ∈ candNodes t,
      (∃ v, getLocStartLine raw = some v ∧ pyEqJson v line = true) ∧
      n = remove_loc_info raw :=
  locateR_found_sound t line n p h

/-- Witness for the amended C5 at the concrete tree `stmtTree`, line 5. -/
theorem C5_locator_start_line_witness :
    ∃ raw ∈ candNodes stmtTree,
      (∃ v, getLocStartLine raw = some v ∧ pyEqJson v (.num 5) = true) ∧
      (Json.obj [("type", .str "ExpressionStatement")]) = remove_loc_info raw :=
  C5_locator_start_line stmtTree (.num 5) _
    ["children", "[*]", "subNodes", "[*]", "body", "statements", "[*]"] rfl

/-- Counterexample to claim C9 as stated: an oyente result entry whose line
(99) cannot be located in the tree is not dropped — `parse_oyente_output`
returns a list containing a `None` placeholder for it (one element), while
no exception escapes. -/
theorem C9_counterexample :
    parse_oyente_output
      (.obj [("a.sol", .obj [("C", .obj [("vulnerabilities",
        .obj [("Reentrancy", .arr [.str "a.sol:99"])])])])])
      stmtTree "a.sol" = some [none] := rfl

/-- Amended claim C9: for an entry whose enclosing AST node cannot be located
(the locator raises), the slither adapter skips the detector entry and
contributes nothing, continuing with the remaining entries; the oyente
adapter catches the locator failure but appends a `None` placeholder (one
list element, filtered as falsy by the caller) and continues. In both cases
no exception escapes the adapter for this failure. -/
theorem C9_locator_failure_handling :
    (∀ (entry : String) (rest : List Json) (v_name c_name cfp : String) (ast : Json)
        (acc : List (Option Vulnerability)) (ln : String) (i : Int) (fn : Option Json),
      splitIdx1 entry = some ln →
      pyIntParse ln = some i →
      get_function_name ast i = some fn →
      (locateR ast (.num i) = .notfound ∨ locateR ast (.num i) = .err) →
      oyEntries (.str entry :: rest) v_name c_name cfp ast acc =
        oyEntries rest v_name c_name cfp ast (acc ++ [none])) ∧
    (∀ (d : Json) (rest : List Json) (ast : Json) (sol_file : String)
        (fnS cnS fnS2 cnS2 : Option (Option Json)) (acc : List Vulnerability)
        (elems : List Json) (l0 : Json) (ls : List Json),
      get_attr (some d) "elements" = some (.arr elems) →
      elems ≠ [] →
      slithElemLoop elems fnS cnS [] sol_file = some (fnS2, cnS2, l0 :: ls, false) →
      (locateR ast l0 = .notfound ∨ locateR ast l0 = .err) →
      slithDets (d :: rest) ast sol_file fnS cnS acc =
        slithDets rest ast sol_file fnS2 cnS2 acc) := by
  constructor
  · intro entry rest v_name c_name cfp ast acc ln i fn hsplit hint hfn hloc
    rcases hloc with hloc | hloc <;>
      simp only [oyEntries, hsplit, get_vuln_object, hint, hfn, hloc]
  · intro d rest ast sol_file fnS cnS fnS2 cnS2 acc elems l0 ls hel hne hloop hloc
    have htr : pyTruthy (.arr elems) = true := by
      simp [pyTruthy]
      intro hc
      exact hne hc
    rcases hloc with hloc | hloc <;>
      simp only [slithDets, hel, htr, Bool.not_true, Bool.false_eq_true, if_false, hloop,
        List.isEmpty_cons, Bool.false_or, hloc]

/-- Witness for the amended C9 at a concrete unlocatable oyente entry. -/
theorem C9_locator_failure_handling_witness :
    oyEntries [.str "a.sol:99"] "Reentrancy" "C" "a.sol" stmtTree [] =
      oyEntries [] "Reentrancy" "C" "a.sol" stmtTree ([] ++ [none]) :=
  C9_locator_failure_handling.1 "a.sol:99" [] "Reentrancy" "C" "a.sol" stmtTree []
    "99" 99 (some (.str "unknown")) rfl rfl rfl (Or.inl rfl)

/-! ## Shift invariance of the locator -/

theorem jlookup_shiftLocObj (k : Int) (l : List (String × Json)) (key : String) :
    ((shiftLocObj k l).find? (fun kv => kv.1 == key)).map Prod.snd =
      (l.find? (fun kv => kv.1 == key)).map
        (fun kv => if kv.1 = "loc" then shiftLines k kv.2 else shiftLoc k kv.2) := by
  induction l with
  | nil => simp [shiftLocObj]
  | cons a rest ih =>
    obtain ⟨k', v⟩ := a
    by_cases hk : (k' == key) = true
    · simp [shiftLocObj, List.find?, hk]
    · have hk' : (k' == key) = false := by
        revert hk; cases k' == key <;> simp
      simp only [shiftLocObj, List.find?, hk']
      exact ih

theorem jlookup_shiftLoc (k : Int) (t : Json) (key : String) :
    jlookup (shiftLoc k t) key =
      (jlookup t key).map (fun v => if key = "loc" then shiftLines k v else shiftLoc k v) := by
  cases t with
  | obj l =>
    simp only [shiftLoc, jlookup]
    have h := jlookup_shiftLocObj k l key
    rw [h]
    cases hf : l.find? (fun kv => kv.1 == key) with
    | none => simp
    | some kv =>
      obtain ⟨k', v⟩ := kv
      have hkey : k' = key := by
        have := List.find?_some hf
        simpa using this
      subst hkey
      simp
  | null => simp [shiftLoc, jlookup]
  | bool b => simp [shiftLoc, jlookup]
  | num m => simp [shiftLoc, jlookup]
  | str s => simp [shiftLoc, jlookup]
  | arr l => simp [shiftLoc, jlookup]

theorem jlookup_shiftLinesObj (k : Int) (l : List (String × Json)) (key : String) :
    ((shiftLinesObj k l).find? (fun kv => kv.1 == key)).map Prod.snd =
      (l.find? (fun kv => kv.1 == key)).map
        (fun kv => if kv.1 = "line" then shiftNum k kv.2 else shiftLines k kv.2) := by
  induction l with
  | nil => simp [shiftLinesObj]
  | cons a rest ih =>
    obtain ⟨k', v⟩ := a
    by_cases hk : (k' == key) = true
    · simp [shiftLinesObj, List.find?, hk]
    · have hk' : (k' == key) = false := by
        revert hk; cases k' == key <;> simp
      simp only [shiftLinesObj, List.find?, hk']
      exact ih

theorem jlookup_shiftLines (k : Int) (t : Json) (key : String) :
    jlookup (shiftLines k t) key =
      (jlookup t key).map (fun v => if key = "line" then shiftNum k v else shiftLines k v) := by
  cases t with
  | obj l =>
    simp only [shiftLines, jlookup]
    have h := jlookup_shiftLinesObj k l key
    rw [h]
    cases hf : l.find? (fun kv => kv.1 == key) with
    | none => simp
    | some kv =>
      obtain ⟨k', v⟩ := kv
      have hkey : k' = key := by
        have := List.find?_some hf
        simpa using this
      subst hkey
      simp
  | null => simp [shiftLines, jlookup]
  | bool b => simp [shiftLines, jlookup]
  | num m => simp [shiftLines, jlookup]
  | str s => simp [shiftLines, jlookup]
  | arr l => simp [shiftLines, jlookup]

theorem remove_loc_shift_aux :
    ∀ (m : Nat) (k : Int),
      (∀ t : Json, sizeOf t ≤ m → remove_loc_info (shiftLoc k t) = remove_loc_info t) ∧
      (∀ l : List Json, sizeOf l ≤ m → removeLocList (shiftLocList k l) = removeLocList l) ∧
      (∀ l : List (String × Json), sizeOf l ≤ m →
        removeLocObj (shiftLocObj k l) = removeLocObj l) := by
  intro m
  induction m with
  | zero =>
    intro k
    refine ⟨fun t h => ?_, fun l h => ?_, fun l h => ?_⟩
    · exfalso; cases t <;> simp at h
    · exfalso; cases l <;> simp at h
    · exfalso; cases l <;> simp at h
  | succ m ih =>
    intro k
    obtain ⟨ih1, ih2, ih3⟩ := ih k
    refine ⟨fun t h => ?_, fun l h => ?_, fun l h => ?_⟩
    · cases t with
      | null => rfl
      | bool b => rfl
      | num n => rfl
      | str s => rfl
      | arr l =>
        simp only [shiftLoc, remove_loc_info]
        rw [ih2 l (by simp at h; omega)]
      | obj l =>
        simp only [shiftLoc, remove_loc_info]
        rw [ih3 l (by simp at h; omega)]
    · cases l with
      | nil => rfl
      | cons x xs =>
        simp only [shiftLocList, removeLocList]
        rw [ih1 x (by simp at h; omega), ih2 xs (by simp at h; omega)]
    · cases l with
      | nil => rfl
      | cons a xs =>
        obtain ⟨k', v⟩ := a
        by_cases hk : k' = "loc"
        · simp only [shiftLocObj, removeLocObj, hk, if_pos rfl, if_true]
          exact ih3 xs (by simp at h; omega)
        · simp only [shiftLocObj, removeLocObj, if_neg hk]
          rw [ih1 v (by simp at h; omega), ih3 xs (by simp at h; omega)]

theorem remove_loc_shiftLoc (k : Int) (t : Json) :
    remove_loc_info (shiftLoc k t) = remove_loc_info t :=
  (remove_loc_shift_aux (sizeOf t) k).1 t le_rfl

theorem getLocStartLine_shiftLoc (k : Int) (t : Json) :
    getLocStartLine (shiftLoc k t) = (getLocStartLine t).map (shiftNum k) := by
  have step1 : jlookup (shiftLoc k t) "loc" = (jlookup t "loc").map (shiftLines k) := by
    rw [jlookup_shiftLoc]
    cases jlookup t "loc" <;> simp
  have step2 : ∀ u : Json, jlookup (shiftLines k u) "start" =
      (jlookup u "start").map (shiftLines k) := by
    intro u
    rw [jlookup_shiftLines]
    cases jlookup u "start" <;> simp
  have step3 : ∀ u : Json, jlookup (shiftLines k u) "line" =
      (jlookup u "line").map (shiftNum k) := by
    intro u
    rw [jlookup_shiftLines]
    cases jlookup u "line" <;> simp
  unfold getLocStartLine
  rw [step1]
  cases jlookup t "loc" with
  | none => simp
  | some locv =>
    simp only [Option.map_some', Option.some_bind]
    rw [step2]
    cases jlookup locv "start" with
    | none => simp
    | some startv =>
      simp only [Option.map_some', Option.some_bind]
      rw [step3]

theorem pyEqStrJ_shiftLoc (k : Int) (v : Json) (s : String) :
    pyEqStrJ (shiftLoc k v) s = pyEqStrJ v s := by
  cases v <;> simp [shiftLoc, pyEqStrJ]

theorem linesNumObj_find (l : List (String × Json)) (key : String) (kv : String × Json)
    (h : linesNumObj l = true) (hf : l.find? (fun e => e.1 == key) = some kv) :
    linesNum kv.2 = true ∧ (kv.1 = "line" → isNumJ kv.2 = true) := by
  induction l with
  | nil => simp [List.find?] at hf
  | cons a rest ih =>
    obtain ⟨k', v⟩ := a
    simp only [linesNumObj, Bool.and_eq_true] at h
    obtain ⟨⟨hor, hv⟩, hrest⟩ := h
    by_cases hk : (k' == key) = true
    · simp only [List.find?, hk] at hf
      simp at hf
      subst hf
      refine ⟨hv, fun hl => ?_⟩
      simp at hl ⊢
      simp [hl] at hor
      exact hor
    · have hk' : (k' == key) = false := by
        revert hk; cases k' == key <;> simp
      simp only [List.find?, hk'] at hf
      exact ih hrest hf

theorem linesNum_jlookup (t : Json) (key : String) (v : Json)
    (h : linesNum t = true) (hl : jlookup t key = some v) :
    linesNum v = true ∧ (key = "line" → isNumJ v = true) := by
  cases t with
  | obj l =>
    simp only [jlookup] at hl
    cases hf : l.find? (fun e => e.1 == key) with
    | none => rw [hf] at hl; simp at hl
    | some kv =>
      rw [hf] at hl
      simp at hl
      have hkey : kv.1 = key := by
        have := List.find?_some hf
        simpa using this
      have hln : linesNum (Json.obj l) = linesNumObj l := rfl
      rw [hln] at h
      obtain ⟨h1, h2⟩ := linesNumObj_find l key kv h hf
      subst hl
      exact ⟨h1, fun hk => h2 (by rw [hkey, hk])⟩
  | null => simp [jlookup] at hl
  | bool b => simp [jlookup] at hl
  | num m => simp [jlookup] at hl
  | str s => simp [jlookup] at hl
  | arr l => simp [jlookup] at hl

theorem getLocStartLine_isNum (t : Json) (v : Json)
    (h : linesNum t = true) (hg : getLocStartLine t = some v) : isNumJ v = true := by
  unfold getLocStartLine at hg
  cases hl : jlookup t "loc" with
  | none => rw [hl] at hg; simp at hg
  | some locv =>
    rw [hl] at hg
    simp only [Option.some_bind] at hg
    cases hs : jlookup locv "start" with
    | none => rw [hs] at hg; simp at hg
    | some startv =>
      rw [hs] at hg
      simp only [Option.some_bind] at hg
      have h1 := (linesNum_jlookup t "loc" locv h hl).1
      have h2 := (linesNum_jlookup locv "start" startv h1 hs).1
      exact (linesNum_jlookup startv "line" v h2 hg).2 rfl

theorem pyEqJson_shiftNum_line (k m l : Int) :
    pyEqJson (shiftNum k (.num m)) (.num (l + k)) = pyEqJson (.num m) (.num l) := by
  show ((m + k) == (l + k)) = (m == l)
  by_cases h : m = l
  · subst h
    rw [beq_self_eq_true, beq_self_eq_true]
  · have h1 : (m + k == l + k) = false := by simp; omega
    have h2 : (m == l) = false := by simp; omega
    rw [h1, h2]

theorem linesNumList_split {x : Json} {xs : List Json}
    (h : linesNumList (x :: xs) = true) : linesNum x = true ∧ linesNumList xs = true := by
  simp only [linesNumList, Bool.and_eq_true] at h
  exact h

theorem goStatements_shift (k l : Int) :
    ∀ (sts : List Json) (path : List String), linesNumList sts = true →
      goStatements (shiftLocList k sts) (.num (l + k)) path =
        goStatements sts (.num l) path := by
  intro sts
  induction sts with
  | nil => intro path _; rfl
  | cons st rest ih =>
    intro path h
    obtain ⟨hst, hrest⟩ := linesNumList_split h
    show goStatements (shiftLoc k st :: shiftLocList k rest) _ _ = _
    unfold goStatements
    rw [getLocStartLine_shiftLoc]
    cases hg : getLocStartLine st with
    | none => simp
    | some v =>
      simp only [Option.map_some']
      have hnum := getLocStartLine_isNum st v hst hg
      cases v with
      | num m =>
        rw [pyEqJson_shiftNum_line]
        by_cases hv : pyEqJson (.num m) (.num l) = true
        · rw [if_pos hv, if_pos hv, remove_loc_shiftLoc]
        · rw [if_neg hv, if_neg hv]
          exact ih path hrest
      | null => simp [isNumJ] at hnum
      | bool b => simp [isNumJ] at hnum
      | str s => simp [isNumJ] at hnum
      | arr a => simp [isNumJ] at hnum
      | obj o => simp [isNumJ] at hnum

theorem goMembers_shift (k l : Int) :
    ∀ (mems : List Json) (path : List String), linesNumList mems = true →
      goMembers (shiftLocList k mems) (.num (l + k)) path = goMembers mems (.num l) path := by
  intro mems
  induction mems with
  | nil => intro path _; rfl
  | cons m rest ih =>
    intro path h
    obtain ⟨hm, hrest⟩ := linesNumList_split h
    show goMembers (shiftLoc k m :: shiftLocList k rest) _ _ = _
    unfold goMembers
    rw [getLocStartLine_shiftLoc]
    cases hg : getLocStartLine m with
    | none => simp
    | some v =>
      simp only [Option.map_some']
      have hnum := getLocStartLine_isNum m v hm hg
      cases v with
      | num mm =>
        rw [pyEqJson_shiftNum_line]
        by_cases hv : pyEqJson (.num mm) (.num l) = true
        · rw [if_pos hv, if_pos hv, remove_loc_shiftLoc]
        · rw [if_neg hv, if_neg hv]
          exact ih path hrest
      | null => simp [isNumJ] at hnum
      | bool b => simp [isNumJ] at hnum
      | str s => simp [isNumJ] at hnum
      | arr a => simp [isNumJ] at hnum
      | obj o => simp [isNumJ] at hnum

theorem linesNum_body_statements (sub v : Json) (hsub : linesNum sub = true)
    (hb : get_attr (get_attr (some sub) "body") "statements" = some v) :
    linesNum v = true := by
  have hb' : get_attr (some sub) "body" = jlookup sub "body" := by simp [get_attr]
  rw [hb'] at hb
  cases hbv : jlookup sub "body" with
  | none => rw [hbv] at hb; simp [get_attr] at hb
  | some bv =>
    rw [hbv] at hb
    have h1 := (linesNum_jlookup sub "body" bv hsub hbv).1
    have hb2 : jlookup bv "statements" = some v := by simpa [get_attr] using hb
    exact (linesNum_jlookup bv "statements" v h1 hb2).1

theorem goSubNodes_shift (k l : Int) :
    ∀ (subs : List Json) (path : List String), linesNumList subs = true →
      goSubNodes (shiftLocList k subs) (.num (l + k)) path =
        goSubNodes subs (.num l) path := by
  intro subs
  induction subs with
  | nil => intro path _; rfl
  | cons sub rest ih =>
    intro path h
    obtain ⟨hsub, hrest⟩ := linesNumList_split h
    show goSubNodes (shiftLoc k sub :: shiftLocList k rest) _ _ = _
    unfold goSubNodes
    have hty' : jlookup (shiftLoc k sub) "type" = (jlookup sub "type").map (shiftLoc k) := by
      rw [jlookup_shiftLoc]
      cases jlookup sub "type" <;> simp
    rw [hty']
    cases hty : jlookup sub "type" with
    | none => simp
    | some t =>
      simp only [Option.map_some', pyEqStrJ_shiftLoc]
      by_cases h1 : (pyEqStrJ t "StateVariableDeclaration" || pyEqStrJ t "UsingForDeclaration" ||
          pyEqStrJ t "EventDefinition") = true
      · rw [if_pos h1, if_pos h1, getLocStartLine_shiftLoc]
        cases hg : getLocStartLine sub with
        | none => simp
        | some v =>
          simp only [Option.map_some']
          have hnum := getLocStartLine_isNum sub v hsub hg
          cases v with
          | num m =>
            rw [pyEqJson_shiftNum_line]
            by_cases hv : pyEqJson (.num m) (.num l) = true
            · rw [if_pos hv, if_pos hv, remove_loc_shiftLoc]
            · rw [if_neg hv, if_neg hv]
              exact ih path hrest
          | null => simp [isNumJ] at hnum
          | bool b => simp [isNumJ] at hnum
          | str s => simp [isNumJ] at hnum
          | arr a => simp [isNumJ] at hnum
          | obj o => simp [isNumJ] at hnum
      · rw [if_neg h1, if_neg h1]
        by_cases h2 : (pyEqStrJ t "StructDefinition" || pyEqStrJ t "EnumDefinition") = true
        · rw [if_pos h2, if_pos h2]
          have hm' : jlookup (shiftLoc k sub) "members" =
              (jlookup sub "members").map (shiftLoc k) := by
            rw [jlookup_shiftLoc]
            cases jlookup sub "members" <;> simp
          rw [hm']
          cases hm : jlookup sub "members" with
          | none => simp
          | some mv =>
            simp only [Option.map_some']
            cases mv with
            | arr mems =>
              simp only [shiftLoc]
              have hmems : linesNumList mems = true := by
                have := (linesNum_jlookup sub "members" (.arr mems) hsub hm).1
                simpa [linesNum] using this
              have hshift := goMembers_shift k l mems path hmems
              rw [hshift]
              cases goMembers mems (.num l) path with
              | found nn pp => rfl
              | notfound => exact ih path hrest
              | err => rfl
            | obj lo =>
              cases lo with
              | nil => exact ih path hrest
              | cons a xs => rfl
            | str s2 =>
              by_cases hse : s2.isEmpty = true
              · simp only [shiftLoc, hse, if_true]
                exact ih path hrest
              · simp only [shiftLoc, hse]
                rfl
            | null => rfl
            | bool b => rfl
            | num mn => rfl
        · rw [if_neg h2, if_neg h2]
          by_cases h3 : (pyEqStrJ t "FunctionDefinition" || pyEqStrJ t "ModifierDefinition") = true
          · rw [if_pos h3, if_pos h3]
            have hb1 : get_attr (some (shiftLoc k sub)) "body" =
                (get_attr (some sub) "body").map (shiftLoc k) := by
              simp only [get_attr, Option.some_bind]
              rw [jlookup_shiftLoc]
              cases jlookup sub "body" <;> simp
            have hb2 : get_attr ((get_attr (some sub) "body").map (shiftLoc k)) "statements" =
                (get_attr (get_attr (some sub) "body") "statements").map (shiftLoc k) := by
              cases hbv : get_attr (some sub) "body" with
              | none => simp [get_attr]
              | some bv =>
                simp only [Option.map_some', get_attr, Option.some_bind]
                rw [jlookup_shiftLoc]
                cases jlookup bv "statements" <;> simp
            rw [hb1, hb2]
            cases hb : get_attr (get_attr (some sub) "body") "statements" with
            | none =>
              simp only [Option.map_none']
              exact ih path hrest
            | some sv =>
              simp only [Option.map_some']
              cases sv with
              | arr sts =>
                cases sts with
                | nil =>
                  simp only [shiftLoc, shiftLocList]
                  exact ih path hrest
                | cons s0 ss =>
                  simp only [shiftLoc, shiftLocList]
                  have hsts : linesNumList (s0 :: ss) = true := by
                    have := linesNum_body_statements sub (.arr (s0 :: ss)) hsub hb
                    simpa [linesNum] using this
                  have hshift := goStatements_shift k l (s0 :: ss) path hsts
                  simp only [shiftLocList] at hshift
                  rw [hshift]
                  cases goStatements (s0 :: ss) (.num l) path with
                  | found nn pp => rfl
                  | notfound => exact ih path hrest
                  | err => rfl
              | obj lo =>
                cases lo with
                | nil => exact ih path hrest
                | cons a xs => rfl
              | str s2 =>
                by_cases hse : s2.isEmpty = true
                · simp only [shiftLoc, hse, if_true]
                  exact ih path hrest
                · simp only [shiftLoc, hse]
                  rfl
              | num mn =>
                by_cases hz : (mn == 0) = true
                · simp only [shiftLoc, hz, if_true]
                  exact ih path hrest
                · simp only [shiftLoc, hz]
                  rfl
              | bool b =>
                cases b with
                | true => rfl
                | false => exact ih path hrest
              | null => exact ih path hrest
          · rw [if_neg h3, if_neg h3]
            exact ih path hrest

theorem goChildren_shift (k l : Int) :
    ∀ (children : List Json) (path : List String), linesNumList children = true →
      goChildren (shiftLocList k children) (.num (l + k)) path =
        goChildren children (.num l) path := by
  intro children
  induction children with
  | nil => intro path _; rfl
  | cons child rest ih =>
    intro path h
    obtain ⟨hchild, hrest⟩ := linesNumList_split h
    show goChildren (shiftLoc k child :: shiftLocList k rest) _ _ = _
    unfold goChildren
    have hty' : jlookup (shiftLoc k child) "type" = (jlookup child "type").map (shiftLoc k) := by
      rw [jlookup_shiftLoc]
      cases jlookup child "type" <;> simp
    rw [hty']
    cases hty : jlookup child "type" with
    | none => simp
    | some t =>
      simp only [Option.map_some', pyEqStrJ_shiftLoc]
      by_cases h1 : pyEqStrJ t "ContractDefinition" = true
      · rw [if_pos h1, if_pos h1]
        have hs' : jlookup (shiftLoc k child) "subNodes" =
            (jlookup child "subNodes").map (shiftLoc k) := by
          rw [jlookup_shiftLoc]
          cases jlookup child "subNodes" <;> simp
        rw [hs']
        cases hsn : jlookup child "subNodes" with
        | none => simp
        | some sv =>
          simp only [Option.map_some']
          cases sv with
          | arr subs =>
            simp only [shiftLoc]
            have hsubs : linesNumList subs = true := by
              have := (linesNum_jlookup child "subNodes" (.arr subs) hchild hsn).1
              simpa [linesNum] using this
            rw [goSubNodes_shift k l subs (path ++ ["subNodes", "[*]"]) hsubs]
            cases goSubNodes subs (.num l) (path ++ ["subNodes", "[*]"]) with
            | found nn pp => rfl
            | notfound => exact ih (path ++ ["subNodes", "[*]"]) hrest
            | err => rfl
          | obj lo =>
            cases lo with
            | nil => exact ih (path ++ ["subNodes", "[*]"]) hrest
            | cons a xs => rfl
          | str s2 =>
            by_cases hse : s2.isEmpty = true
            · simp only [shiftLoc, hse, if_true]
              exact ih (path ++ ["subNodes", "[*]"]) hrest
            · simp only [shiftLoc, hse]
              rfl
          | null => rfl
          | bool b => rfl
          | num mn => rfl
      · rw [if_neg h1, if_neg h1]
        exact ih path hrest

theorem locateR_shift (k l : Int) (t : Json) (hlines : linesNum t = true) :
    locateR (shiftLoc k t) (.num (l + k)) = locateR t (.num l) := by
  unfold locateR
  have hch : jlookup (shiftLoc k t) "children" = (jlookup t "children").map (shiftLoc k) := by
    rw [jlookup_shiftLoc]
    cases jlookup t "children" <;> simp
  rw [hch]
  cases hc : jlookup t "children" with
  | none => simp
  | some cv =>
    simp only [Option.map_some']
    cases cv with
    | arr children =>
      simp only [shiftLoc]
      have hcl : linesNumList children = true := by
        have := (linesNum_jlookup t "children" (.arr children) hlines hc).1
        simpa [linesNum] using this
      exact goChildren_shift k l children ["children", "[*]"] hcl
    | obj lo =>
      cases lo with
      | nil => rfl
      | cons a xs => rfl
    | str s2 =>
      by_cases hse : s2.isEmpty = true
      · simp only [shiftLoc, hse, if_true]
      · simp only [shiftLoc, hse]
    | null => rfl
    | bool b => rfl
    | num mn => rfl

theorem jwf_jlookup (t : Json) (key : String) (v : Json)
    (h : jwf t = true) (hl : jlookup t key = some v) : jwf v = true := by
  cases t with
  | obj l =>
    simp only [jlookup] at hl
    cases hf : l.find? (fun e => e.1 == key) with
    | none => rw [hf] at hl; simp at hl
    | some kv =>
      rw [hf] at hl
      simp at hl
      have hmem := List.mem_of_find?_eq_some hf
      have hwo : jwfObj l = true := by
        simp [jwf, Bool.and_eq_true] at h
        exact h.2
      subst hl
      exact jwfObj_mem hwo hmem
  | null => simp [jlookup] at hl
  | bool b => simp [jlookup] at hl
  | num m => simp [jlookup] at hl
  | str s => simp [jlookup] at hl
  | arr l => simp [jlookup] at hl

theorem removeLocObj_key_mem (l : List (String × Json)) (kv : String × Json)
    (h : kv ∈ removeLocObj l) : ∃ v0, (kv.1, v0) ∈ l := by
  induction l with
  | nil => simp [removeLocObj] at h
  | cons a rest ih =>
    obtain ⟨k', v⟩ := a
    by_cases hk : k' = "loc"
    · simp only [removeLocObj, if_pos hk] at h
      obtain ⟨v0, hv0⟩ := ih h
      exact ⟨v0, by simp [hv0]⟩
    · simp only [removeLocObj, if_neg hk] at h
      rcases List.mem_cons.mp h with hh | ht
      · exact ⟨v, by rw [hh]; simp⟩
      · obtain ⟨v0, hv0⟩ := ih ht
        exact ⟨v0, by simp [hv0]⟩

theorem keysNodup_removeLocObj (l : List (String × Json))
    (h : keysNodup l = true) : keysNodup (removeLocObj l) = true := by
  induction l with
  | nil => simp [removeLocObj, keysNodup]
  | cons a rest ih =>
    obtain ⟨k', v⟩ := a
    simp only [keysNodup, Bool.and_eq_true] at h
    obtain ⟨hall, hrest⟩ := h
    by_cases hk : k' = "loc"
    · simp only [removeLocObj, if_pos hk]
      exact ih hrest
    · simp only [removeLocObj, if_neg hk, keysNodup, Bool.and_eq_true]
      refine ⟨?_, ih hrest⟩
      apply List.all_eq_true.mpr
      intro kv hkv
      obtain ⟨v0, hv0⟩ := removeLocObj_key_mem rest kv hkv
      have := List.all_eq_true.mp hall (kv.1, v0) hv0
      simpa using this

theorem jwf_remove_loc_aux :
    ∀ (m : Nat),
      (∀ t : Json, sizeOf t ≤ m → jwf t = true → jwf (remove_loc_info t) = true) ∧
      (∀ l : List Json, sizeOf l ≤ m → jwfList l = true → jwfList (removeLocList l) = true) ∧
      (∀ l : List (String × Json), sizeOf l ≤ m → jwfObj l = true →
        jwfObj (removeLocObj l) = true) := by
  intro m
  induction m with
  | zero =>
    refine ⟨fun t h _ => ?_, fun l h _ => ?_, fun l h _ => ?_⟩
    · exfalso; cases t <;> simp at h
    · exfalso; cases l <;> simp at h
    · exfalso; cases l <;> simp at h
  | succ m ih =>
    obtain ⟨ih1, ih2, ih3⟩ := ih
    refine ⟨fun t h hwf => ?_, fun l h hwf => ?_, fun l h hwf => ?_⟩
    · cases t with
      | null => exact hwf
      | bool b => exact hwf
      | num n => exact hwf
      | str s => exact hwf
      | arr l =>
        simp only [remove_loc_info, jwf] at hwf ⊢
        exact ih2 l (by simp at h; omega) hwf
      | obj l =>
        simp only [remove_loc_info, jwf, Bool.and_eq_true] at hwf ⊢
        exact ⟨keysNodup_removeLocObj l hwf.1, ih3 l (by simp at h; omega) hwf.2⟩
    · cases l with
      | nil => exact hwf
      | cons x xs =>
        simp only [removeLocList, jwfList, Bool.and_eq_true] at hwf ⊢
        exact ⟨ih1 x (by simp at h; omega) hwf.1, ih2 xs (by simp at h; omega) hwf.2⟩
    · cases l with
      | nil => exact hwf
      | cons a xs =>
        obtain ⟨k', v⟩ := a
        simp only [jwfObj, Bool.and_eq_true] at hwf
        by_cases hk : k' = "loc"
        · simp only [removeLocObj, if_pos hk]
          exact ih3 xs (by simp at h; omega) hwf.2
        · simp only [removeLocObj, if_neg hk, jwfObj, Bool.and_eq_true]
          exact ⟨ih1 v (by simp at h; omega) hwf.1, ih3 xs (by simp at h; omega) hwf.2⟩

theorem jwf_remove_loc (t : Json) (h : jwf t = true) : jwf (remove_loc_info t) = true :=
  (jwf_remove_loc_aux (sizeOf t)).1 t le_rfl h

theorem jwf_candOfSub (s raw : Json) (hs : jwf s = true) (hr : raw ∈ candOfSub s) :
    jwf raw = true := by
  unfold candOfSub at hr
  split at hr
  · simp at hr
  · split at hr
    · simp at hr
      rw [hr]
      exact hs
    · split at hr
      · split at hr
        · rename_i mems hm
          have hwm := jwf_jlookup s "members" _ hs hm
          exact jwfList_mem (by simpa [jwf] using hwm) hr
        · simp at hr
      · split at hr
        · split at hr
          · rename_i sts hb
            have hb' : get_attr (some s) "body" = jlookup s "body" := by simp [get_attr]
            rw [hb'] at hb
            have hwsts : jwfList sts = true := by
              cases hbv : jlookup s "body" with
              | none => rw [hbv] at hb; simp [get_attr] at hb
              | some bv =>
                rw [hbv] at hb
                have h1 := jwf_jlookup s "body" bv hs hbv
                have hb2 : jlookup bv "statements" = some (.arr sts) := by
                  simpa [get_attr] using hb
                have h2 := jwf_jlookup bv "statements" _ h1 hb2
                simpa [jwf] using h2
            exact jwfList_mem hwsts hr
          · simp at hr
        · simp at hr

theorem jwf_candNodes (t raw : Json) (ht : jwf t = true) (hr : raw ∈ candNodes t) :
    jwf raw = true := by
  unfold candNodes at hr
  split at hr
  · rename_i children hc
    obtain ⟨c, hcm, hrc⟩ := (mem_foldr_append _ _ _).mp hr
    have hwc : jwf c = true := by
      have := jwf_jlookup t "children" _ ht hc
      exact jwfList_mem (by simpa [jwf] using this) hcm
    unfold candOfChild at hrc
    split at hrc
    · simp at hrc
    · split at hrc
      · split at hrc
        · rename_i subs hsn
          obtain ⟨s, hsm, hrs⟩ := (mem_foldr_append _ _ _).mp hrc
          have hws : jwf s = true := by
            have := jwf_jlookup c "subNodes" _ hwc hsn
            exact jwfList_mem (by simpa [jwf] using this) hsm
          exact jwf_candOfSub s raw hws hrs
        · simp at hrc
      · simp at hrc
  · simp at hr

/-- Claim C1: identity stability under line-number drift. Shifting every
`loc` line number of a parsed tree by `k` (inserting `k` unrelated lines
above it) makes the locator return the same stripped node and the same
structural path at the shifted line; the two findings built from the two
runs — same detector kind, contract and function name, different `line_num`
fields — are equal under `Vulnerability.__eq__` and have identical
`__hash__` values for every base hash function. -/
theorem C1_identity_stability (t : Json) (k l : Int) (n : Json) (p : List String)
    (hwf : jwf t = true) (hlines : linesNum t = true)
    (hfound : locateR t (.num l) = .found n p) :
    locateR (shiftLoc k t) (.num (l + k)) = .found n p ∧
    ∀ (vn cn fn : Option Json) (cfp : String) (ln1 ln2 : List Int),
      pyWf vn = true → pyWf cn = true → pyWf fn = true →
      vulnEq ⟨vn, cfp, cn, fn, ln1, joinDots p, n⟩ ⟨vn, cfp, cn, fn, ln2, joinDots p, n⟩ = true ∧
      ∀ h : Option Json → Nat,
        vulnHashWith h ⟨vn, cfp, cn, fn, ln1, joinDots p, n⟩ =
          vulnHashWith h ⟨vn, cfp, cn, fn, ln2, joinDots p, n⟩ := by
  constructor
  · rw [locateR_shift k l t hlines]
    exact hfound
  · intro vn cn fn cfp ln1 ln2 hvn hcn hfn
    have hwn : jwf n = true := by
      obtain ⟨raw, hraw, _, hn⟩ := locateR_found_sound t (.num l) n p hfound
      rw [hn]
      exact jwf_remove_loc raw (jwf_candNodes t raw hwf hraw)
    constructor
    · simp only [vulnEq]
      rw [beq_self_eq_true, jsonEquiv_refl n hwn, pyEqObj_refl cn hcn,
        pyEqObj_refl fn hfn, pyEqObj_refl vn hvn]
      rfl
    · intro h
      rfl

/-- Witness for C1: `stmtTree` shifted by two lines; line 5 becomes line 7
and yields the same stripped statement node, with equal findings. -/
theorem C1_identity_stability_witness :
    locateR (shiftLoc 2 stmtTree) (.num (5 + 2)) =
      .found (.obj [("type", .str "ExpressionStatement")])
        ["children", "[*]", "subNodes", "[*]", "body", "statements", "[*]"] ∧
    vulnEq
      ⟨some (.str "reentrancy-eth"), "a.sol", some (.str "C"), some (.str "f"), [5],
        joinDots ["children", "[*]", "subNodes", "[*]", "body", "statements", "[*]"],
        .obj [("type", .str "ExpressionStatement")]⟩
      ⟨some (.str "reentrancy-eth"), "a.sol", some (.str "C"), some (.str "f"), [7],
        joinDots ["children", "[*]", "subNodes", "[*]", "body", "statements", "[*]"],
        .obj [("type", .str "ExpressionStatement")]⟩ = true :=
  ⟨(C1_identity_stability stmtTree 2 5 _ _ rfl rfl rfl).1,
   ((C1_identity_stability stmtTree 2 5 _ _ rfl rfl rfl).2
     (some (.str "reentrancy-eth")) (some (.str "C")) (some (.str "f"))
     "a.sol" [5] [7] rfl rfl rfl).1⟩
